import Mathlib

/-!
Shallow embedding of the LowDb document-store connector (`src/lowdb.ts`) of the
`datap` repository, together with proofs settling the specification claims.

Modelling conventions:
* JavaScript values are the inductive `Val`; JS objects are association lists
  of fields in insertion order with unique keys (JS objects cannot carry a
  duplicate key; where a theorem needs this it carries a `Nodup` hypothesis).
* Property access `doc[k]` on an absent key yields `undefined`, modelled by
  `getField` returning `.vUndefined`.
* `Date` objects are instants (`.vDate t`); their `String(...)` rendering is
  modelled by an injective placeholder (JS renders a locale date string whose
  exact shape no theorem below depends on).
* `localeCompare` is modelled as codepoint-lexicographic string comparison.
* `new ObjectId().toString()` is nondeterministic fresh-id generation; every
  operation that may generate an id receives the generated string explicitly.
* `new Date()` is modelled by an explicit `now : Nat` instant argument.
* `RegExp(...).test` is kept abstract: operations that evaluate `$regex`
  receive the tester `rt : Val → Val → String → Bool` (pattern, options,
  stringified field value) as an explicit argument.
* References/aliasing: the embedding is functional; two compound literals are
  distinct JS references, so `===` (`strictEq`) on them is `false`.
* Each `LowDbConnector` collection is a `Collection`: the in-memory `data`
  array plus the backing file contents `file`; `db.write()` copies `data` to
  `file`.
-/

namespace Datap

/-- JavaScript runtime values as stored in LowDb documents. -/
inductive Val where
  | vNull
  | vUndefined
  | vBool (b : Bool)
  | vNum (n : Int)
  | vStr (s : String)
  | vDate (t : Nat)
  | vArr (elems : List Val)
  | vObj (fields : List (String × Val))
deriving Repr

mutual

/-- Structural boolean equality on `Val` (used only to derive decidability of `=`). -/
def beqV : Val → Val → Bool
  | .vNull, .vNull => true
  | .vUndefined, .vUndefined => true
  | .vBool a, .vBool b => a == b
  | .vNum a, .vNum b => a == b
  | .vStr a, .vStr b => a == b
  | .vDate a, .vDate b => a == b
  | .vArr a, .vArr b => beqL a b
  | .vObj a, .vObj b => beqF a b
  | _, _ => false

/-- Structural boolean equality on lists of `Val`. -/
def beqL : List Val → List Val → Bool
  | [], [] => true
  | x :: xs, y :: ys => beqV x y && beqL xs ys
  | _, _ => false

/-- Structural boolean equality on field lists. -/
def beqF : List (String × Val) → List (String × Val) → Bool
  | [], [] => true
  | (k, v) :: xs, (k', v') :: ys => k == k' && beqV v v' && beqF xs ys
  | _, _ => false

end

mutual

theorem beqV_iff : ∀ a b, beqV a b = true ↔ a = b
  | .vNull, b => by cases b <;> simp [beqV]
  | .vUndefined, b => by cases b <;> simp [beqV]
  | .vBool a, b => by cases b <;> simp [beqV]
  | .vNum a, b => by cases b <;> simp [beqV]
  | .vStr a, b => by cases b <;> simp [beqV]
  | .vDate a, b => by cases b <;> simp [beqV]
  | .vArr a, b => by
      cases b <;> simp [beqV]
      exact beqL_iff a _
  | .vObj a, b => by
      cases b <;> simp [beqV]
      exact beqF_iff a _

theorem beqL_iff : ∀ a b, beqL a b = true ↔ a = b
  | [], b => by cases b <;> simp [beqL]
  | x :: xs, b => by
      cases b with
      | nil => simp [beqL]
      | cons y ys => simp [beqL, beqV_iff x y, beqL_iff xs ys]

theorem beqF_iff : ∀ a b, beqF a b = true ↔ a = b
  | [], b => by cases b <;> simp [beqF]
  | (k, v) :: xs, b => by
      cases b with
      | nil => simp [beqF]
      | cons y ys =>
        obtain ⟨k', v'⟩ := y
        simp [beqF, beqV_iff v v', beqF_iff xs ys, and_assoc]

end

instance : DecidableEq Val := fun a b => decidable_of_iff (beqV a b = true) (beqV_iff a b)

/-- A JS object / LowDb document: fields in insertion order. -/
abbrev Doc := List (String × Val)

/-- Property read `doc[k]`: first field named `k`, or `undefined` when absent. -/
def getField : Doc → String → Val
  | [], _ => .vUndefined
  | (k', v) :: rest, k => if k' = k then v else getField rest k

/-- Does the object carry a field named `k`? -/
def hasField (d : Doc) (k : String) : Bool :=
  d.any (fun kv => kv.1 = k)

/-- Property write `obj[k] = v` / spread override: replaces the value in place
(keeping the key's original position) or appends a new field. -/
def setField : Doc → String → Val → Doc
  | [], k, v => [(k, v)]
  | (k', v') :: rest, k, v =>
      if k' = k then (k, v) :: rest else (k', v') :: setField rest k v

/-- Object spread `\x7b...base, ...patch\x7d`: every field of `patch` written
over `base` in order. -/
def mergeDoc (base patch : Doc) : Doc :=
  patch.foldl (fun acc kv => setField acc kv.1 kv.2) base

/-- JavaScript truthiness. -/
def truthy : Val → Bool
  | .vNull => false
  | .vUndefined => false
  | .vBool b => b
  | .vNum n => n != 0
  | .vStr s => s ≠ ""
  | _ => true

/-- JavaScript strict equality `===`. Compound values (objects, arrays, Dates)
compare by reference; the embedding has no aliasing, so two compound literals
are distinct references and compare unequal. -/
def strictEq : Val → Val → Bool
  | .vNull, .vNull => true
  | .vUndefined, .vUndefined => true
  | .vBool a, .vBool b => a == b
  | .vNum a, .vNum b => a == b
  | .vStr a, .vStr b => a == b
  | _, _ => false

mutual

/-- The JS `String(v)` rendering. `Date` rendering is an injective placeholder
for the locale date string; no theorem depends on its exact shape. -/
def toJSString : Val → String
  | .vNull => "null"
  | .vUndefined => "undefined"
  | .vBool b => if b then "true" else "false"
  | .vNum n => toString n
  | .vStr s => s
  | .vDate t => "[Date " ++ toString t ++ "]"
  | .vArr xs => arrJoin xs
  | .vObj _ => "[object Object]"

/-- Array `toString`: comma-joined element renderings, with `null`/`undefined`
elements rendering as the empty string. -/
def arrJoin : List Val → String
  | [] => ""
  | [x] =>
      match x with
      | .vNull => ""
      | .vUndefined => ""
      | v => toJSString v
  | x :: y :: xs =>
      (match x with
       | .vNull => ""
       | .vUndefined => ""
       | v => toJSString v) ++ "," ++ arrJoin (y :: xs)

end

/-- Codepoint-lexicographic strict order on character lists (the JS code-unit
order on strings, restricted to the basic plane the model uses). -/
def ltB : List Char → List Char → Bool
  | [], [] => false
  | [], _ :: _ => true
  | _ :: _, [] => false
  | a :: as, b :: bs =>
      if a.toNat < b.toNat then true
      else if b.toNat < a.toNat then false
      else ltB as bs

/-- JS `a < b` on strings. -/
def strLt (a b : String) : Bool := ltB a.data b.data

/-- Digit-sequence parser used to model JS numeric string conversion. -/
def parseNatAux : List Char → Nat → Option Nat
  | [], acc => some acc
  | c :: cs, acc =>
      if 48 ≤ c.toNat ∧ c.toNat ≤ 57 then parseNatAux cs (acc * 10 + (c.toNat - 48))
      else none

/-- JS `ToNumber` on a string, restricted to optional integer literals (the
model has no float literals); the empty string converts to 0, any other
non-numeric string to `NaN` (`none`). -/
def parseIntStr (s : String) : Option Int :=
  match s.data with
  | [] => some 0
  | '-' :: rest =>
      if rest.isEmpty then none
      else (parseNatAux rest 0).map (fun n => -(n : Int))
  | l => (parseNatAux l 0).map (fun n => (n : Int))

/-- JS `ToNumber` restricted to the modelled value space (`none` = `NaN`). -/
def toNum : Val → Option Int
  | .vNull => some 0
  | .vUndefined => none
  | .vBool b => some (if b then 1 else 0)
  | .vNum n => some n
  | .vDate t => some t
  | .vStr s => parseIntStr s
  | .vArr xs => parseIntStr (arrJoin xs)
  | .vObj _ => none

/-- JS abstract relational comparison `a < b`: lexicographic when both sides
are strings, otherwise numeric; `none` when a side converts to `NaN`. -/
def jsRel : Val → Val → Option Bool
  | .vStr a, .vStr b => some (strLt a b)
  | a, b =>
      match toNum a, toNum b with
      | some x, some y => some (decide (x < y))
      | _, _ => none

/-- JS `a > b`. -/
def jsGt (a b : Val) : Bool := (jsRel b a).getD false

/-- JS `a >= b`. -/
def jsGe (a b : Val) : Bool :=
  match jsRel a b with
  | some r => !r
  | none => false

/-- JS `a < b`. -/
def jsLt (a b : Val) : Bool := (jsRel a b).getD false

/-- JS `a <= b`. -/
def jsLe (a b : Val) : Bool :=
  match jsRel b a with
  | some r => !r
  | none => false

/-- JS `xs.includes(x)` (SameValueZero; the model has no `NaN`). A non-array
receiver would throw in JS; the claims never exercise that path, and the model
renders it as no match. -/
def jsIncludes (xs x : Val) : Bool :=
  match xs with
  | .vArr l => l.any (fun e => strictEq e x)
  | _ => false

/-- The `typeof value === "object" && value !== null` test of `#matchQuery`:
true for objects, arrays and Dates. -/
def isObjLike : Val → Bool
  | .vObj _ => true
  | .vArr _ => true
  | .vDate _ => true
  | _ => false

/-- Property access on a condition value (`value.$eq` etc.): only plain objects
expose fields; arrays and Dates have no `$`-properties. -/
def opLookup : Val → String → Val
  | .vObj fs, k => getField fs k
  | _, _ => .vUndefined

/-- Is the value defined (`!== undefined`)? -/
def isDefined (v : Val) : Bool :=
  match v with
  | .vUndefined => false
  | _ => true

/-- One `(field, condition)` check of `LowDbConnector.#matchQuery`, applied to
the document's field value. `rt` is the abstract `RegExp(...).test`. -/
def matchCond (rt : Val → Val → String → Bool) (dv cond : Val) : Bool :=
  if isObjLike cond then
    (!(isDefined (opLookup cond "$eq") && !strictEq dv (opLookup cond "$eq"))) &&
    (!(isDefined (opLookup cond "$ne") && strictEq dv (opLookup cond "$ne"))) &&
    (!(isDefined (opLookup cond "$gt") && !jsGt dv (opLookup cond "$gt"))) &&
    (!(isDefined (opLookup cond "$gte") && !jsGe dv (opLookup cond "$gte"))) &&
    (!(isDefined (opLookup cond "$lt") && !jsLt dv (opLookup cond "$lt"))) &&
    (!(isDefined (opLookup cond "$lte") && !jsLe dv (opLookup cond "$lte"))) &&
    (!(isDefined (opLookup cond "$in") && !jsIncludes (opLookup cond "$in") dv)) &&
    (!(isDefined (opLookup cond "$nin") && jsIncludes (opLookup cond "$nin") dv)) &&
    (!(isDefined (opLookup cond "$regex") &&
        !rt (opLookup cond "$regex")
          (if truthy (opLookup cond "$options") then opLookup cond "$options" else .vStr "")
          (toJSString dv)))
  else
    strictEq dv cond

/-- `LowDbConnector.#matchQuery`: conjunction over the query's `(field,
condition)` entries; the empty query matches everything. -/
def matchQuery (rt : Val → Val → String → Bool) (doc query : Doc) : Bool :=
  query.all (fun kv => matchCond rt (getField doc kv.1) kv.2)

/-- Integer result of the modelled `localeCompare`. -/
def strCmpI (a b : String) : Int :=
  if strLt a b then -1 else if a = b then 0 else 1

/-- The comparator closure passed to `Array.prototype.sort` by `find`/`findOne`
for sort field `f` and direction `ord`, rendered as a "keep `a` before `b`"
boolean (comparator result `≤ 0`). -/
def jsSortLe (f : String) (ord : Int) (a b : Doc) : Bool :=
  if ord = -1 then
    strCmpI (toJSString (getField b f)) (toJSString (getField a f)) ≤ 0
  else
    strCmpI (toJSString (getField a f)) (toJSString (getField b f)) ≤ 0

/-- Stable insertion of an element into a sorted list: `a` is placed before the
first element `b` with `le a b`. -/
def ordInsert (le : Doc → Doc → Bool) (a : Doc) : List Doc → List Doc
  | [] => [a]
  | b :: l => if le a b then a :: b :: l else b :: ordInsert le a l

/-- Stable sort (insertion sort). `Array.prototype.sort` is stable and, for a
consistent comparator, produces the unique stably-sorted order, so any stable
sort is an exact model of it. -/
def stableSort (le : Doc → Doc → Bool) : List Doc → List Doc
  | [] => []
  | x :: xs => ordInsert le x (stableSort le xs)

/-- The sort step of `find`/`findOne`: `Object.keys(sort)[0]` is the only field
consulted. An empty sort object makes the comparator compare `undefined` with
itself, returning 0 on every pair: a stable no-op. -/
def sortDocs (spec : List (String × Int)) (l : List Doc) : List Doc :=
  match spec with
  | [] => l
  | (f, ord) :: _ => stableSort (jsSortLe f ord) l

/-- Result shape of `createOne`. -/
structure CreateOneResult where
  insertedId : Val
deriving Repr, DecidableEq

/-- Result shape of `createMany`. -/
structure CreateManyResult where
  insertedCount : Nat
  insertedIds : List Val
deriving Repr, DecidableEq

/-- Result shape of `updateOne`/`updateMany`. -/
structure UpdateResult where
  matchedCount : Nat
  modifiedCount : Nat
deriving Repr, DecidableEq

/-- Result shape of `upsertOne`; the optional fields are present exactly on the
insert path. -/
structure UpsertResult where
  upsertedId : Option Val := none
  upsertedCount : Option Nat := none
  matchedCount : Nat
  modifiedCount : Nat
deriving Repr, DecidableEq

/-- One named collection of the connector: the in-memory `db.data` array and
the backing JSON file written by `db.write()`. -/
structure Collection where
  data : List Doc
  file : List Doc
deriving Repr, DecidableEq

/-- The collection state after `db.data = data; await db.write()`. -/
def writeBack (data : List Doc) : Collection :=
  { data := data, file := data }

/-- The `_id` chosen for an inserted document: `doc._id || generated`. -/
def newIdVal (doc : Doc) (gId : String) : Val :=
  if truthy (getField doc "_id") then getField doc "_id" else .vStr gId

/-- The inserted document `\x7b...doc, _id, createdAt: now, updatedAt: now\x7d`
built by `createOne`, `createMany` and the insert branch of `upsertOne`. -/
def withMeta (doc : Doc) (now : Nat) (gId : String) : Doc :=
  setField (setField (setField doc "_id" (newIdVal doc gId)) "createdAt" (.vDate now))
    "updatedAt" (.vDate now)

/-- `LowDbConnector.createOne`. -/
def createOne (c : Collection) (doc : Doc) (now : Nat) (gId : String) :
    CreateOneResult × Collection :=
  let newDoc := withMeta doc now gId
  ({ insertedId := newIdVal doc gId }, writeBack (c.data ++ [newDoc]))

/-- The per-document loop body of `createMany`: each document is stamped with
its (possibly generated) id and the shared `now`. -/
def mkNewDocs (docs : List Doc) (now : Nat) (g : Nat → String) (i : Nat) : List Doc :=
  match docs with
  | [] => []
  | d :: rest => withMeta d now (g i) :: mkNewDocs rest now g (i + 1)

/-- `LowDbConnector.createMany`: one shared timestamp, one generated id per
document lacking `_id`, a single write at the end. -/
def createMany (c : Collection) (docs : List Doc) (now : Nat) (g : Nat → String) :
    CreateManyResult × Collection :=
  let newDocs := mkNewDocs docs now g 0
  ({ insertedCount := docs.length,
     insertedIds := newDocs.map (fun d => getField d "_id") },
   writeBack (c.data ++ newDocs))

/-- `LowDbConnector.findOne`: filter, stable sort on the first sort field,
first element or `null`. The TS default sort argument is `\x7b _id: -1 \x7d`. -/
def findOne (rt : Val → Val → String → Bool) (c : Collection) (query : Doc)
    (sort : List (String × Int) := [("_id", -1)]) : Option Doc :=
  let hits := c.data.filter (fun d => matchQuery rt d query)
  if hits.isEmpty then none else (sortDocs sort hits).head?

/-- `LowDbConnector.find`: filter, optional sort, then `skip`/`limit` (each
applied only when positive). -/
def find (rt : Val → Val → String → Bool) (c : Collection) (query : Doc)
    (limit : Nat := 0) (skip : Nat := 0) (sort : Option (List (String × Int)) := none) :
    List Doc :=
  let results := c.data.filter (fun d => matchQuery rt d query)
  let results :=
    match sort with
    | none => results
    | some spec => sortDocs spec results
  let results := if skip > 0 then results.drop skip else results
  if limit > 0 then results.take limit else results

/-- `LowDbConnector.findById`. -/
def findById (c : Collection) (id : String) : Option Doc :=
  c.data.find? (fun d => strictEq (getField d "_id") (.vStr id))

/-- Replace the first element satisfying `p` by its image under `f`
(`findIndex` + in-place assignment); `none` when no element satisfies `p`. -/
def updateFirst (p : Doc → Bool) (f : Doc → Doc) : List Doc → Option (List Doc)
  | [] => none
  | d :: rest =>
      if p d then some (f d :: rest) else (updateFirst p f rest).map (fun l => d :: l)

/-- The merge `\x7b...old, ...patch, updatedAt: now\x7d` shared by the update
paths. -/
def mergeUp (patch : Doc) (now : Nat) (old : Doc) : Doc :=
  setField (mergeDoc old patch) "updatedAt" (.vDate now)

/-- `LowDbConnector.updateOne`. The thrown `Error` is modelled as `Except.error`
with the source's message. -/
def updateOne (c : Collection) (doc : Doc) (now : Nat) :
    Except String (UpdateResult × Collection) :=
  let idv := getField doc "_id"
  let idv2 := getField doc "id"
  let restDoc := doc.filter (fun kv => kv.1 ≠ "_id" ∧ kv.1 ≠ "id")
  let documentId := if truthy idv then idv else idv2
  if !truthy documentId then
    .error "Either _id or id must be provided"
  else
    match updateFirst (fun d => strictEq (getField d "_id") documentId)
        (mergeUp restDoc now) c.data with
    | none => .ok ({ matchedCount := 0, modifiedCount := 0 }, c)
    | some data' => .ok ({ matchedCount := 1, modifiedCount := 1 }, writeBack data')

/-- `LowDbConnector.updateMany`. -/
def updateMany (rt : Val → Val → String → Bool) (c : Collection) (query doc : Doc)
    (now : Nat) : UpdateResult × Collection :=
  let data' := c.data.map (fun d => if matchQuery rt d query then mergeUp doc now d else d)
  let n := c.data.countP (fun d => matchQuery rt d query)
  ({ matchedCount := n, modifiedCount := n }, writeBack data')

/-- `LowDbConnector.upsertOne`: try an `_id` match, then a designated-key-field
match, then insert. The designated key name is `doc.key` coerced to a property
name. -/
def upsertOne (c : Collection) (doc : Doc) (now : Nat) (gId : String) :
    UpsertResult × Collection :=
  let tryId :=
    if truthy (getField doc "_id") then
      updateFirst (fun d => strictEq (getField d "_id") (getField doc "_id"))
        (mergeUp doc now) c.data
    else none
  match tryId with
  | some data' =>
      ({ matchedCount := 1, modifiedCount := 1 }, writeBack data')
  | none =>
    let keyd := getField doc "key"
    let keyField := toJSString keyd
    let tryKey :=
      if truthy keyd && truthy (getField doc keyField) then
        updateFirst (fun d => strictEq (getField d keyField) (getField doc keyField))
          (mergeUp doc now) c.data
      else none
    match tryKey with
    | some data' =>
        ({ matchedCount := 1, modifiedCount := 1 }, writeBack data')
    | none =>
        let newDoc := withMeta doc now gId
        ({ upsertedId := some (newIdVal doc gId), upsertedCount := some 1,
           matchedCount := 0, modifiedCount := 0 },
         writeBack (c.data ++ [newDoc]))

/-! ### Helper lemmas: field access, merging, in-place update, stable sort -/


theorem getField_setField (d : Doc) (k k' : String) (v : Val) :
    getField (setField d k v) k' = if k = k' then v else getField d k' := by
  induction d with
  | nil => rfl
  | cons kv rest ih =>
      obtain ⟨k0, v0⟩ := kv
      by_cases h0 : k0 = k
      · by_cases h : k = k' <;> simp [setField, getField, h0, h]
      · by_cases h1 : k0 = k'
        · have hk : ¬ k = k' := fun hh => h0 (h1.trans hh.symm)
          have hk' : ¬ k' = k := fun hh => hk hh.symm
          simp [setField, getField, h0, h1, hk, hk']
        · simp [setField, getField, h0, h1, ih]

theorem hasField_cons_false {k0 : String} {v0 : Val} {rest : Doc} {k : String}
    (h : hasField ((k0, v0) :: rest) k = false) :
    k0 ≠ k ∧ hasField rest k = false := by
  simpa [hasField, List.any_cons] using h

theorem getField_of_not_hasField {d : Doc} {k : String} (h : hasField d k = false) :
    getField d k = .vUndefined := by
  induction d with
  | nil => rfl
  | cons kv rest ih =>
      obtain ⟨k0, v0⟩ := kv
      obtain ⟨h1, h2⟩ := hasField_cons_false h
      simp [getField, h1, ih h2]

theorem hasField_of_getField {d : Doc} {k : String} (h : getField d k ≠ .vUndefined) :
    hasField d k = true := by
  by_contra hf
  exact h (getField_of_not_hasField (Bool.not_eq_true _ ▸ hf))

theorem mergeDoc_cons (base : Doc) (k0 : String) (v0 : Val) (rest : Doc) :
    mergeDoc base ((k0, v0) :: rest) = mergeDoc (setField base k0 v0) rest := rfl

theorem getField_mergeDoc_of_not_hasField {patch : Doc} {k : String} (base : Doc)
    (h : hasField patch k = false) :
    getField (mergeDoc base patch) k = getField base k := by
  induction patch generalizing base with
  | nil => rfl
  | cons kv rest ih =>
      obtain ⟨k0, v0⟩ := kv
      obtain ⟨h1, h2⟩ := hasField_cons_false h
      rw [mergeDoc_cons, ih _ h2, getField_setField, if_neg h1]

theorem setField_of_hasField_false {d : Doc} {k : String} (v : Val)
    (h : hasField d k = false) : setField d k v = d ++ [(k, v)] := by
  induction d with
  | nil => rfl
  | cons kv rest ih =>
      obtain ⟨k0, v0⟩ := kv
      obtain ⟨h1, h2⟩ := hasField_cons_false h
      simp [setField, h1, ih h2]

theorem keysNodup_cons {k0 : String} {v0 : Val} {rest : Doc}
    (h : (((k0, v0) :: rest).map Prod.fst).Nodup) :
    hasField rest k0 = false ∧ (rest.map Prod.fst).Nodup := by
  rw [List.map_cons, List.nodup_cons] at h
  refine ⟨?_, h.2⟩
  simp only [hasField, List.any_eq_false, decide_eq_true_eq]
  intro kv hkv hk
  subst hk
  exact h.1 (List.mem_map.mpr ⟨kv, hkv, rfl⟩)

theorem getField_mergeDoc_of_hasField {patch : Doc} {k : String} (base : Doc)
    (hnd : (patch.map Prod.fst).Nodup) (h : hasField patch k = true) :
    getField (mergeDoc base patch) k = getField patch k := by
  induction patch generalizing base with
  | nil => simp [hasField] at h
  | cons kv rest ih =>
      obtain ⟨k0, v0⟩ := kv
      obtain ⟨hk0, hnd'⟩ := keysNodup_cons hnd
      by_cases hk : k0 = k
      · subst hk
        rw [mergeDoc_cons, getField_mergeDoc_of_not_hasField _ hk0, getField_setField,
          if_pos rfl]
        simp [getField]
      · have h' : hasField rest k = true := by
          simpa [hasField, List.any_cons, hk] using h
        rw [mergeDoc_cons, ih _ hnd' h']
        simp [getField, hk]


theorem getField_mergeUp_of_not_hasField {patch : Doc} {k : String} (old : Doc) (now : Nat)
    (h : hasField patch k = false) (hup : k ≠ "updatedAt") :
    getField (mergeUp patch now old) k = getField old k := by
  rw [mergeUp, getField_setField, if_neg (fun hh => hup hh.symm),
    getField_mergeDoc_of_not_hasField _ h]

theorem getField_mergeUp_of_hasField {patch : Doc} {k : String} (old : Doc) (now : Nat)
    (hnd : (patch.map Prod.fst).Nodup) (h : hasField patch k = true) (hup : k ≠ "updatedAt") :
    getField (mergeUp patch now old) k = getField patch k := by
  rw [mergeUp, getField_setField, if_neg (fun hh => hup hh.symm),
    getField_mergeDoc_of_hasField _ hnd h]

theorem getField_mergeUp_updatedAt (patch : Doc) (now : Nat) (old : Doc) :
    getField (mergeUp patch now old) "updatedAt" = .vDate now := by
  rw [mergeUp, getField_setField, if_pos rfl]

theorem updateFirst_eq_none {p : Doc → Bool} {f : Doc → Doc} {l : List Doc} :
    updateFirst p f l = none ↔ ∀ d ∈ l, p d = false := by
  induction l with
  | nil => simp [updateFirst]
  | cons d rest ih =>
      by_cases h : p d
      · simp [updateFirst, h]
      · simp [updateFirst, h, ih, Bool.not_eq_true _ ▸ h]

theorem updateFirst_spec {p : Doc → Bool} {f : Doc → Doc} {pre : List Doc} {d : Doc}
    (post : List Doc) (hpre : ∀ x ∈ pre, p x = false) (hd : p d = true) :
    updateFirst p f (pre ++ d :: post) = some (pre ++ f d :: post) := by
  induction pre with
  | nil => simp [updateFirst, hd]
  | cons x xs ih =>
      have hx := hpre x (by simp)
      simp only [List.cons_append, updateFirst, hx, Bool.false_eq_true, if_false]
      rw [List.append_eq, ih (fun y hy => hpre y (by simp [hy]))]
      rfl

theorem updateFirst_eq_some {p : Doc → Bool} {f : Doc → Doc} {l l' : List Doc}
    (h : updateFirst p f l = some l') :
    ∃ pre d post, l = pre ++ d :: post ∧ (∀ x ∈ pre, p x = false) ∧ p d = true ∧
      l' = pre ++ f d :: post := by
  induction l generalizing l' with
  | nil => simp [updateFirst] at h
  | cons x xs ih =>
      by_cases hx : p x
      · refine ⟨[], x, xs, by simp, by simp, hx, ?_⟩
        simp [updateFirst, hx] at h
        simp [h.symm]
      · simp only [updateFirst, hx, Bool.false_eq_true, if_false, Option.map_eq_some'] at h
        obtain ⟨l0, hl0, hl'⟩ := h
        obtain ⟨pre, d, post, hxs, hpre, hd, hl0'⟩ := ih hl0
        refine ⟨x :: pre, d, post, by simp [hxs], ?_, hd, by simp [hl'.symm, hl0']⟩
        intro y hy
        rcases List.mem_cons.1 hy with rfl | hy'
        · simpa using hx
        · exact hpre y hy'

theorem ordInsert_perm (le : Doc → Doc → Bool) (a : Doc) (l : List Doc) :
    (ordInsert le a l).Perm (a :: l) := by
  induction l with
  | nil => exact List.Perm.refl _
  | cons b rest ih =>
      by_cases h : le a b
      · simp [ordInsert, h]
      · simp only [ordInsert, h, Bool.false_eq_true, if_false]
        exact (ih.cons b).trans (List.Perm.swap a b rest)

theorem stableSort_perm (le : Doc → Doc → Bool) (l : List Doc) :
    (stableSort le l).Perm l := by
  induction l with
  | nil => exact List.Perm.refl _
  | cons x xs ih =>
      exact (ordInsert_perm le x (stableSort le xs)).trans (ih.cons x)

theorem ordInsert_pairwise {le : Doc → Doc → Bool} {l : List Doc} (a : Doc)
    (htot : ∀ x y, le x y || le y x) (htr : ∀ x y z, le x y = true → le y z = true → le x z = true)
    (hl : l.Pairwise (fun x y => le x y = true)) :
    (ordInsert le a l).Pairwise (fun x y => le x y = true) := by
  induction l with
  | nil => simp [ordInsert]
  | cons b rest ih =>
      rcases List.pairwise_cons.1 hl with ⟨hb, hrest⟩
      by_cases h : le a b
      · simp only [ordInsert, h, if_true]
        refine List.pairwise_cons.2 ⟨?_, hl⟩
        intro y hy
        rcases List.mem_cons.1 hy with rfl | hy'
        · exact h
        · exact htr a b y h (hb y hy')
      · have hfa : le a b = false := Bool.not_eq_true _ ▸ h
        have hba : le b a = true := by simpa [hfa] using htot a b
        simp only [ordInsert, h, Bool.false_eq_true, if_false]
        refine List.pairwise_cons.2 ⟨?_, ih hrest⟩
        intro y hy
        have : y = a ∨ y ∈ rest :=
          List.mem_cons.1 ((ordInsert_perm le a rest).mem_iff.1 hy)
        rcases this with rfl | hy'
        · exact hba
        · exact hb y hy'

theorem stableSort_pairwise {le : Doc → Doc → Bool} (l : List Doc)
    (htot : ∀ x y, le x y || le y x)
    (htr : ∀ x y z, le x y = true → le y z = true → le x z = true) :
    (stableSort le l).Pairwise (fun x y => le x y = true) := by
  induction l with
  | nil => simp [stableSort]
  | cons x xs ih => exact ordInsert_pairwise x htot htr ih

theorem ordInsert_filter_pos {le : Doc → Doc → Bool} {p : Doc → Bool} {a : Doc}
    {l : List Doc} (hpa : p a = true) (hle : ∀ b ∈ l, p b = true → le a b = true) :
    (ordInsert le a l).filter p = a :: l.filter p := by
  induction l with
  | nil => simp [ordInsert, hpa]
  | cons b rest ih =>
      by_cases h : le a b
      · simp [ordInsert, h, hpa]
      · have hpb : p b = false := by
          by_contra hb
          exact h (hle b (by simp) (Bool.not_eq_false _ ▸ hb))
        simp only [ordInsert, h, Bool.false_eq_true, if_false, List.filter_cons, hpb]
        exact ih (fun b' hb' => hle b' (by simp [hb']))

theorem ordInsert_filter_neg {le : Doc → Doc → Bool} {p : Doc → Bool} {a : Doc}
    {l : List Doc} (hpa : p a = false) :
    (ordInsert le a l).filter p = l.filter p := by
  induction l with
  | nil => simp [ordInsert, hpa]
  | cons b rest ih =>
      by_cases h : le a b
      · simp [ordInsert, h, List.filter_cons, hpa]
      · simp only [ordInsert, h, Bool.false_eq_true, if_false, List.filter_cons]
        rw [ih]

theorem stableSort_filter {le : Doc → Doc → Bool} {p : Doc → Bool} (l : List Doc)
    (hties : ∀ x y, p x = true → p y = true → le x y = true) :
    (stableSort le l).filter p = l.filter p := by
  induction l with
  | nil => rfl
  | cons x xs ih =>
      by_cases hpx : p x
      · rw [show stableSort le (x :: xs) = ordInsert le x (stableSort le xs) from rfl,
          ordInsert_filter_pos hpx (fun b _ hb => hties x b hpx hb), ih, List.filter_cons,
          if_pos (by simp [hpx])]
      · rw [show stableSort le (x :: xs) = ordInsert le x (stableSort le xs) from rfl,
          ordInsert_filter_neg (Bool.not_eq_true _ ▸ hpx), ih, List.filter_cons,
          if_neg (by simp [Bool.not_eq_true _ ▸ hpx])]


/-! ### Concrete data used by counterexamples and witnesses -/

/-- A concrete regex tester (the counterexample queries never reach `$regex`). -/
def rtF : Val → Val → String → Bool := fun _ _ _ => false

/-- C1 data: first document, tied on `a` with the second, larger on `b`. -/
def c1d1 : Doc := [("a", .vNum 1), ("b", .vNum 2)]

/-- C1 data: second document. -/
def c1d2 : Doc := [("a", .vNum 1), ("b", .vNum 1)]

/-- C1 collection holding `c1d1` before `c1d2`. -/
def c1coll : Collection := ⟨[c1d1, c1d2], [c1d1, c1d2]⟩

/-- C2 data: a document whose sort field is `null`. -/
def c2nullDoc : Doc := [("a", .vNull)]

/-- C2 data: a document whose sort field holds a defined (truthy) string. -/
def c2defined : Doc := [("a", .vStr "abc")]

/-- C2 collection holding the null document first. -/
def c2coll : Collection := ⟨[c2nullDoc, c2defined], [c2nullDoc, c2defined]⟩

/-! ### Properties of the sort comparator -/

theorem char_eq_of_toNat_eq {a b : Char} (h : a.toNat = b.toNat) : a = b := by
  have hv : a.val = b.val := by
    apply UInt32.ext
    simpa [Char.toNat] using h
  exact Char.ext hv

theorem ltB_cons_iff {x y : Char} {xs ys : List Char} :
    ltB (x :: xs) (y :: ys) = true ↔
      (x.toNat < y.toNat ∨ (x.toNat = y.toNat ∧ ltB xs ys = true)) := by
  simp only [ltB]
  by_cases h1 : x.toNat < y.toNat
  · simp [h1]
  · by_cases h2 : y.toNat < x.toNat
    · simp [h1, h2]
      omega
    · have he : x.toNat = y.toNat := by omega
      simp [h1, h2, he]

theorem ltB_irrefl (l : List Char) : ltB l l = false := by
  induction l with
  | nil => rfl
  | cons a as ih => simp [ltB, Nat.lt_irrefl, ih]

theorem ltB_trans : ∀ {a b c : List Char},
    ltB a b = true → ltB b c = true → ltB a c = true
  | [], b, c, h1, h2 => by
      cases b with
      | nil => simp [ltB] at h1
      | cons y ys =>
          cases c with
          | nil => simp [ltB] at h2
          | cons z zs => simp [ltB]
  | _ :: _, [], _, h1, _ => by simp [ltB] at h1
  | _ :: _, _ :: _, [], _, h2 => by simp [ltB] at h2
  | x :: xs, y :: ys, z :: zs, h1, h2 => by
      rw [ltB_cons_iff] at h1 h2 ⊢
      rcases h1 with h | ⟨he, hr⟩ <;> rcases h2 with h' | ⟨he', hr'⟩
      · exact Or.inl (by omega)
      · exact Or.inl (by omega)
      · exact Or.inl (by omega)
      · exact Or.inr ⟨by omega, ltB_trans hr hr'⟩

theorem eq_of_ltB_false : ∀ {a b : List Char},
    ltB a b = false → ltB b a = false → a = b
  | [], [], _, _ => rfl
  | [], _ :: _, h1, _ => by simp [ltB] at h1
  | _ :: _, [], _, h2 => by simp [ltB] at h2
  | x :: xs, y :: ys, h1, h2 => by
      have hx : ¬ x.toNat < y.toNat := by
        intro h
        rw [ltB_cons_iff.2 (Or.inl h)] at h1
        cases h1
      have hy : ¬ y.toNat < x.toNat := by
        intro h
        rw [ltB_cons_iff.2 (Or.inl h)] at h2
        cases h2
      have he : x.toNat = y.toNat := by omega
      have hxs : ltB xs ys = false := by
        cases hl : ltB xs ys
        · rfl
        · rw [ltB_cons_iff.2 (Or.inr ⟨he, hl⟩)] at h1
          cases h1
      have hys : ltB ys xs = false := by
        cases hl : ltB ys xs
        · rfl
        · rw [ltB_cons_iff.2 (Or.inr ⟨he.symm, hl⟩)] at h2
          cases h2
      rw [char_eq_of_toNat_eq he, eq_of_ltB_false hxs hys]

theorem strLt_conn {a b : String} (h1 : strLt a b = false) (h2 : strLt b a = false) :
    a = b := by
  cases a with
  | mk la =>
      cases b with
      | mk lb =>
          have : la = lb := eq_of_ltB_false h1 h2
          rw [this]

theorem strCmpI_self (a : String) : strCmpI a a = 0 := by
  simp [strCmpI, strLt, ltB_irrefl]

theorem strCmpI_le_zero_iff (a b : String) :
    strCmpI a b ≤ 0 ↔ (strLt a b = true ∨ a = b) := by
  unfold strCmpI
  by_cases h : strLt a b = true
  · simp [h]
  · by_cases he : a = b
    · subst he
      simp [strLt, ltB_irrefl]
    · simp [h, he]

theorem strCmpI_le_total (a b : String) : strCmpI a b ≤ 0 ∨ strCmpI b a ≤ 0 := by
  by_cases h : strLt a b = true
  · exact Or.inl ((strCmpI_le_zero_iff a b).2 (Or.inl h))
  · by_cases h2 : strLt b a = true
    · exact Or.inr ((strCmpI_le_zero_iff b a).2 (Or.inl h2))
    · have he : a = b := strLt_conn (Bool.not_eq_true _ ▸ h) (Bool.not_eq_true _ ▸ h2)
      exact Or.inl ((strCmpI_le_zero_iff a b).2 (Or.inr he))

theorem strCmpI_le_trans {a b c : String} (h1 : strCmpI a b ≤ 0) (h2 : strCmpI b c ≤ 0) :
    strCmpI a c ≤ 0 := by
  rw [strCmpI_le_zero_iff] at h1 h2 ⊢
  rcases h1 with h | rfl
  · rcases h2 with h' | rfl
    · exact Or.inl (ltB_trans h h')
    · exact Or.inl h
  · exact h2

theorem jsSortLe_total (f : String) (o : Int) (a b : Doc) :
    (jsSortLe f o a b || jsSortLe f o b a) = true := by
  unfold jsSortLe
  by_cases h : o = -1 <;>
    simp only [h, if_true, if_false, Bool.or_eq_true, decide_eq_true_eq] <;>
    exact strCmpI_le_total _ _

theorem jsSortLe_trans (f : String) (o : Int) (a b c : Doc) (h1 : jsSortLe f o a b = true)
    (h2 : jsSortLe f o b c = true) : jsSortLe f o a c = true := by
  unfold jsSortLe at h1 h2 ⊢
  by_cases h : o = -1
  · simp only [h, if_true, decide_eq_true_eq] at h1 h2 ⊢
    exact strCmpI_le_trans h2 h1
  · simp only [h, if_false, decide_eq_true_eq] at h1 h2 ⊢
    exact strCmpI_le_trans h1 h2

theorem jsSortLe_of_render_eq {f : String} (o : Int) {a b : Doc}
    (h : toJSString (getField a f) = toJSString (getField b f)) : jsSortLe f o a b = true := by
  unfold jsSortLe
  by_cases ho : o = -1 <;> simp [ho, decide_eq_true_eq, h, strCmpI_self]

theorem sortDocs_nil (spec : List (String × Int)) : sortDocs spec [] = [] := by
  cases spec with
  | nil => rfl
  | cons a rest => rfl

theorem find_eq_sortDocs (rt : Val → Val → String → Bool) (c : Collection) (q : Doc)
    (spec : List (String × Int)) :
    find rt c q 0 0 (some spec) = sortDocs spec (c.data.filter (fun d => matchQuery rt d q)) :=
  rfl

/-! ### Claim C1 -/

/-- C1, counterexample. The collection holds `d1 = \x7ba:1, b:2\x7d` then
`d2 = \x7ba:1, b:1\x7d`; the sort specification `\x7ba:1, b:1\x7d` has two
fields. The claim predicts the tie on `a` to be resolved by `b` ascending,
i.e. output `[d2, d1]`; the code ignores every sort field after the first and
its stable sort returns `[d1, d2]` (the documents are distinct and `d2`
strictly precedes `d1` on the second field). -/
theorem c1_counterexample :
    find rtF c1coll [] 0 0 (some [("a", 1), ("b", 1)]) = [c1d1, c1d2] ∧
    toJSString (getField c1d1 "a") = toJSString (getField c1d2 "a") ∧
    strCmpI (toJSString (getField c1d2 "b")) (toJSString (getField c1d1 "b")) < 0 ∧
    c1d1 ≠ c1d2 :=
  ⟨rfl, rfl, by decide, by decide⟩

/-- C1 (amended): `find` and `findOne` sort the filtered documents by the FIRST
field of the sort specification only — the result is invariant under every
later field; the filtered documents are permuted into an order pairwise-sorted
by the first field's direction-adjusted string comparator, documents whose
first-field renderings are equal keep their prior relative order (the sort is
stable), and `findOne` returns the head of that order. -/
theorem c1_sort_first_field_only (rt : Val → Val → String → Bool) (c : Collection)
    (q : Doc) (f : String) (o : Int) (rest rest' : List (String × Int))
    (limit skip : Nat) (s : String) :
    find rt c q limit skip (some ((f, o) :: rest)) =
      find rt c q limit skip (some ((f, o) :: rest')) ∧
    findOne rt c q ((f, o) :: rest) = (find rt c q 0 0 (some ((f, o) :: rest))).head? ∧
    (find rt c q 0 0 (some ((f, o) :: rest))).Perm
      (c.data.filter (fun d => matchQuery rt d q)) ∧
    List.Pairwise (fun a b => jsSortLe f o a b = true)
      (find rt c q 0 0 (some ((f, o) :: rest))) ∧
    (find rt c q 0 0 (some ((f, o) :: rest))).filter
        (fun d => toJSString (getField d f) == s) =
      (c.data.filter (fun d => matchQuery rt d q)).filter
        (fun d => toJSString (getField d f) == s) := by
  refine ⟨rfl, ?_, ?_, ?_, ?_⟩
  · rw [find_eq_sortDocs, findOne]
    by_cases h : (c.data.filter (fun d => matchQuery rt d q)).isEmpty
    · rw [List.isEmpty_iff.1 h]
      simp [sortDocs_nil]
    · simp [h]
  · rw [find_eq_sortDocs]
    exact stableSort_perm _ _
  · rw [find_eq_sortDocs]
    exact stableSort_pairwise _ (jsSortLe_total f o) (jsSortLe_trans f o)
  · rw [find_eq_sortDocs]
    refine stableSort_filter _ ?_
    intro x y hx hy
    exact jsSortLe_of_render_eq o ((beq_iff_eq.1 hx).trans (beq_iff_eq.1 hy).symm)

/-! ### Claim C2 -/

/-- C2, counterexample. Under an ascending sort on `a`, the document whose
field is `null` is ordered AFTER the document whose field holds the defined
string "abc", because the code compares `String(...)` renderings ("null" vs
"abc"); the claim predicts every null/undefined value first. -/
theorem c2_counterexample :
    find rtF c2coll [] 0 0 (some [("a", 1)]) = [c2defined, c2nullDoc] ∧
    getField c2nullDoc "a" = .vNull ∧
    truthy (getField c2defined "a") = true :=
  ⟨rfl, rfl, rfl⟩

/-- C2 (amended): the sort comparison used by `find`/`findOne` is
`localeCompare` on the `String(...)` renderings of the field values
(direction-reversed when descending), not a typed cross-type comparator: the
output is pairwise ordered by rendering; `null` and `undefined` render as the
literal strings "null" and "undefined" (so they do NOT sort before every
defined value), and `Date` values are compared via their rendered string
rather than by their underlying instant. -/
theorem c2_sort_uses_string_rendering (rt : Val → Val → String → Bool) (c : Collection)
    (q : Doc) (f : String) (rest : List (String × Int)) :
    List.Pairwise
      (fun a b => strCmpI (toJSString (getField a f)) (toJSString (getField b f)) ≤ 0)
      (find rt c q 0 0 (some ((f, 1) :: rest))) ∧
    List.Pairwise
      (fun a b => strCmpI (toJSString (getField b f)) (toJSString (getField a f)) ≤ 0)
      (find rt c q 0 0 (some ((f, -1) :: rest))) ∧
    toJSString .vNull = "null" ∧
    toJSString .vUndefined = "undefined" := by
  refine ⟨?_, ?_, rfl, rfl⟩
  · rw [find_eq_sortDocs]
    refine (stableSort_pairwise _ (jsSortLe_total f 1) (jsSortLe_trans f 1)).imp ?_
    intro a b h
    simpa [jsSortLe, decide_eq_true_eq] using h
  · rw [find_eq_sortDocs]
    refine (stableSort_pairwise _ (jsSortLe_total f (-1)) (jsSortLe_trans f (-1))).imp ?_
    intro a b h
    simpa [jsSortLe, decide_eq_true_eq] using h


/-! ### Claim C3: id uniqueness across operation sequences -/

/-- The `_id` values of the stored documents, in storage order. -/
def ids (c : Collection) : List Val := c.data.map (fun d => getField d "_id")

/-- One connector call on a fixed collection, with its nondeterministic inputs
(`now`, generated ids) made explicit. -/
inductive DbOp where
  | opCreate (doc : Doc) (now : Nat) (g : String)
  | opCreateMany (docs : List Doc) (now : Nat) (g : Nat → String)
  | opUpdate (doc : Doc) (now : Nat)
  | opUpdateMany (q : Doc) (patch : Doc) (now : Nat)
  | opUpsert (doc : Doc) (now : Nat) (g : String)

/-- The collection state after one call (a thrown `updateOne` leaves the state
unchanged: it throws before touching the data). -/
def applyOp (rt : Val → Val → String → Bool) (c : Collection) : DbOp → Collection
  | .opCreate doc now g => (createOne c doc now g).2
  | .opCreateMany docs now g => (createMany c docs now g).2
  | .opUpdate doc now =>
      match updateOne c doc now with
      | .ok r => r.2
      | .error _ => c
  | .opUpdateMany q patch now => (updateMany rt c q patch now).2
  | .opUpsert doc now g => (upsertOne c doc now g).2

/-- Run a sequence of calls. -/
def runOps (rt : Val → Val → String → Bool) (c : Collection) : List DbOp → Collection
  | [] => c
  | op :: rest => runOps rt (applyOp rt c op) rest

/-- Side conditions of the amended claim C3: caller documents and patches carry
no `_id` field, and each generated id is fresh for the current collection
(distinct within a `createMany` batch). -/
def goodOp (c : Collection) : DbOp → Prop
  | .opCreate doc _ g => hasField doc "_id" = false ∧ Val.vStr g ∉ ids c
  | .opCreateMany docs _ g =>
      (∀ d ∈ docs, hasField d "_id" = false) ∧
      (∀ i < docs.length, Val.vStr (g i) ∉ ids c) ∧
      (∀ i j, i < docs.length → j < docs.length → i ≠ j → g i ≠ g j)
  | .opUpdate _ _ => True
  | .opUpdateMany _ patch _ => hasField patch "_id" = false
  | .opUpsert doc _ g => hasField doc "_id" = false ∧ Val.vStr g ∉ ids c

/-- The side conditions hold at every step of the trace. -/
def goodTrace (rt : Val → Val → String → Bool) : Collection → List DbOp → Prop
  | _, [] => True
  | c, op :: rest => goodOp c op ∧ goodTrace rt (applyOp rt c op) rest

theorem getField_withMeta_id (doc : Doc) (now : Nat) (g : String) :
    getField (withMeta doc now g) "_id" = newIdVal doc g := by
  unfold withMeta
  rw [getField_setField, if_neg (by decide), getField_setField, if_neg (by decide),
    getField_setField, if_pos rfl]

theorem newIdVal_no_id {doc : Doc} (g : String) (h : hasField doc "_id" = false) :
    newIdVal doc g = .vStr g := by
  unfold newIdVal
  rw [getField_of_not_hasField h]
  rfl

theorem truthy_id_false {doc : Doc} (h : hasField doc "_id" = false) :
    truthy (getField doc "_id") = false := by
  rw [getField_of_not_hasField h]
  rfl

theorem hasField_filter_false {l : Doc} {p : String × Val → Bool} {k : String}
    (h : ∀ kv, p kv = true → kv.1 ≠ k) : hasField (l.filter p) k = false := by
  simp only [hasField, List.any_eq_false, decide_eq_true_eq]
  intro kv hkv
  exact h kv (List.of_mem_filter hkv)

theorem ids_createOne (c : Collection) {doc : Doc} (now : Nat) (g : String)
    (h : hasField doc "_id" = false) :
    ids (createOne c doc now g).2 = ids c ++ [.vStr g] := by
  unfold createOne ids writeBack
  simp [getField_withMeta_id, newIdVal_no_id g h]

theorem mkNewDocs_ids (docs : List Doc) (now : Nat) (g : Nat → String) :
    ∀ i, (∀ d ∈ docs, hasField d "_id" = false) →
      (mkNewDocs docs now g i).map (fun d => getField d "_id") =
        (List.range docs.length).map (fun j => Val.vStr (g (i + j))) := by
  induction docs with
  | nil => intro i _; rfl
  | cons d rest ih =>
      intro i h
      rw [show mkNewDocs (d :: rest) now g i = withMeta d now (g i) :: mkNewDocs rest now g (i + 1)
        from rfl]
      rw [List.map_cons, getField_withMeta_id, newIdVal_no_id _ (h d (by simp)),
        ih (i + 1) (fun x hx => h x (by simp [hx])), List.length_cons,
        List.range_succ_eq_map, List.map_cons, List.map_map]
      refine congrArg (Val.vStr (g (i + 0)) :: ·) ?_
      refine List.map_congr_left ?_
      intro j _
      simp only [Function.comp_apply]
      refine congrArg (fun s => Val.vStr (g s)) ?_
      omega

theorem ids_createMany (c : Collection) {docs : List Doc} (now : Nat) (g : Nat → String)
    (h : ∀ d ∈ docs, hasField d "_id" = false) :
    ids (createMany c docs now g).2 =
      ids c ++ (List.range docs.length).map (fun j => Val.vStr (g j)) := by
  unfold createMany ids writeBack
  simp only [List.map_append]
  rw [show (mkNewDocs docs now g 0).map (fun d => getField d "_id") =
      (List.range docs.length).map (fun j => Val.vStr (g (0 + j))) from
    mkNewDocs_ids docs now g 0 h]
  refine congrArg (_ ++ ·) (List.map_congr_left ?_)
  intro j _
  simp

theorem ids_mergeUp_of_no_id {patch : Doc} (now : Nat) (old : Doc)
    (h : hasField patch "_id" = false) :
    getField (mergeUp patch now old) "_id" = getField old "_id" :=
  getField_mergeUp_of_not_hasField old now h (by decide)

theorem ids_updateFirst_of_no_id {patch : Doc} {now : Nat} {p : Doc → Bool}
    {l l' : List Doc} (h : hasField patch "_id" = false)
    (hu : updateFirst p (mergeUp patch now) l = some l') :
    l'.map (fun d => getField d "_id") = l.map (fun d => getField d "_id") := by
  obtain ⟨pre, d, post, hl, _, _, hl'⟩ := updateFirst_eq_some hu
  subst hl hl'
  simp [ids_mergeUp_of_no_id now d h]

theorem ids_updateOne (c : Collection) (doc : Doc) (now : Nat) :
    ids (match updateOne c doc now with | .ok r => r.2 | .error _ => c) = ids c := by
  unfold updateOne
  by_cases ht :
      truthy (if truthy (getField doc "_id") then getField doc "_id" else getField doc "id")
  · simp only [ht, Bool.not_true, Bool.false_eq_true, if_false]
    cases hu : updateFirst
        (fun d => strictEq (getField d "_id")
          (if truthy (getField doc "_id") then getField doc "_id" else getField doc "id"))
        (mergeUp (doc.filter fun kv => kv.1 ≠ "_id" ∧ kv.1 ≠ "id") now) c.data with
    | none => rfl
    | some data' =>
        have hrest : hasField (doc.filter fun kv => kv.1 ≠ "_id" ∧ kv.1 ≠ "id") "_id" = false := by
          refine hasField_filter_false ?_
          intro kv hkv
          simp only [decide_eq_true_eq] at hkv
          exact hkv.1
        show ids (writeBack data') = ids c
        unfold ids writeBack
        exact ids_updateFirst_of_no_id hrest hu
  · simp [ht]

theorem ids_updateMany (rt : Val → Val → String → Bool) (c : Collection) (q : Doc)
    {patch : Doc} (now : Nat) (h : hasField patch "_id" = false) :
    ids (updateMany rt c q patch now).2 = ids c := by
  unfold updateMany ids writeBack
  simp only [List.map_map]
  refine List.map_congr_left ?_
  intro d _
  simp only [Function.comp_apply]
  by_cases hm : matchQuery rt d q
  · simp [hm, ids_mergeUp_of_no_id now d h]
  · simp [hm]

theorem ids_upsertOne (c : Collection) {doc : Doc} (now : Nat) (g : String)
    (h : hasField doc "_id" = false) :
    ids (upsertOne c doc now g).2 = ids c ∨
      ids (upsertOne c doc now g).2 = ids c ++ [.vStr g] := by
  unfold upsertOne
  rw [truthy_id_false h]
  simp only [Bool.false_eq_true, if_false]
  cases hk : (if truthy (getField doc "key") && truthy (getField doc (toJSString (getField doc "key"))) then
      updateFirst
        (fun d => strictEq (getField d (toJSString (getField doc "key")))
          (getField doc (toJSString (getField doc "key"))))
        (mergeUp doc now) c.data
    else none) with
  | none =>
      refine Or.inr ?_
      unfold ids writeBack
      simp [getField_withMeta_id, newIdVal_no_id g h]
  | some data' =>
      refine Or.inl ?_
      show ids (writeBack data') = ids c
      unfold ids writeBack
      cases hcond : truthy (getField doc "key") &&
          truthy (getField doc (toJSString (getField doc "key"))) with
      | true =>
          rw [if_pos hcond] at hk
          exact ids_updateFirst_of_no_id h hk
      | false =>
          rw [hcond] at hk
          simp at hk

theorem goodOp_step (rt : Val → Val → String → Bool) (c : Collection) (op : DbOp)
    (hg : goodOp c op) :
    ∃ ext, ids (applyOp rt c op) = ids c ++ ext ∧ ext.Nodup ∧ ∀ v ∈ ext, v ∉ ids c := by
  cases op with
  | opCreate doc now g =>
      exact ⟨[.vStr g], ids_createOne c now g hg.1, by simp, by simpa using hg.2⟩
  | opCreateMany docs now g =>
      obtain ⟨h1, h2, h3⟩ := hg
      refine ⟨(List.range docs.length).map (fun j => Val.vStr (g j)),
        ids_createMany c now g h1, ?_, ?_⟩
      · refine List.Nodup.map_on ?_ (List.nodup_range _)
        intro i hi j hj hij
        by_contra hne
        exact h3 i j (List.mem_range.1 hi) (List.mem_range.1 hj) hne
          (Val.vStr.inj hij)
      · intro v hv
        obtain ⟨j, hj, rfl⟩ := List.mem_map.1 hv
        exact h2 j (List.mem_range.1 hj)
  | opUpdate doc now =>
      exact ⟨[], by simpa using ids_updateOne c doc now, by simp, by simp⟩
  | opUpdateMany q patch now =>
      exact ⟨[], by simpa using ids_updateMany rt c q now hg, by simp, by simp⟩
  | opUpsert doc now g =>
      rcases ids_upsertOne c now g hg.1 with h | h
      · exact ⟨[], by simpa using h, by simp, by simp⟩
      · exact ⟨[.vStr g], h, by simp, by simpa using hg.2⟩

/-- C3, counterexample. `createOne` performs no uniqueness check on a
caller-supplied `_id`: inserting `\x7b_id: "x"\x7d` twice (with fresh generated
ids "g1" ≠ "g2" available) leaves two stored documents with the same `_id`,
so `_id` values are not pairwise distinct at all times. -/
theorem c3_counterexample :
    ids (createOne (createOne ⟨[], []⟩ [("_id", .vStr "x")] 0 "g1").2
        [("_id", .vStr "x")] 1 "g2").2 = [.vStr "x", .vStr "x"] ∧
    ¬ (ids (createOne (createOne ⟨[], []⟩ [("_id", .vStr "x")] 0 "g1").2
        [("_id", .vStr "x")] 1 "g2").2).Nodup ∧
    "g1" ≠ "g2" :=
  ⟨by decide, by decide, by decide⟩

/-- C3 (amended): provided no document or patch argument carries an `_id` field
and every generated id is fresh (never currently stored, and pairwise distinct
within a `createMany` batch), any sequence of `createOne`, `createMany`,
`updateOne`, `updateMany` and `upsertOne` calls keeps the stored `_id` values
pairwise distinct, and the ids of previously stored documents are never
changed or reordered — the id list only ever grows by appending (in
particular `updateOne` needs no side condition at all: it strips `_id`/`id`
from its patch). -/
theorem c3_id_uniqueness (rt : Val → Val → String → Bool) (c : Collection)
    (ops : List DbOp) (h0 : (ids c).Nodup) (hg : goodTrace rt c ops) :
    (ids (runOps rt c ops)).Nodup ∧ ∃ ext, ids (runOps rt c ops) = ids c ++ ext := by
  induction ops generalizing c with
  | nil => exact ⟨h0, [], by simp [runOps]⟩
  | cons op rest ih =>
      obtain ⟨hop, htr⟩ := hg
      obtain ⟨ext, hext, hnd, hfresh⟩ := goodOp_step rt c op hop
      have h1 : (ids (applyOp rt c op)).Nodup := by
        rw [hext]
        exact List.Nodup.append h0 hnd (fun v hv hv' => hfresh v hv' hv)
      obtain ⟨hnd', ext2, hext2⟩ := ih (applyOp rt c op) h1 htr
      refine ⟨hnd', ext ++ ext2, ?_⟩
      rw [show runOps rt c (op :: rest) = runOps rt (applyOp rt c op) rest from rfl, hext2,
        hext, List.append_assoc]

/-- C3 witness: a concrete three-call trace (create, upsert-insert, update)
satisfying the amended claim's side conditions, on which the theorem applies. -/
theorem c3_witness :
    (ids (⟨[], []⟩ : Collection)).Nodup ∧
    goodTrace rtF ⟨[], []⟩
      [.opCreate [("a", .vNum 1)] 0 "id1",
       .opUpsert [("key", .vStr "a"), ("a", .vNum 2)] 1 "id2",
       .opUpdate [("_id", .vStr "id1"), ("b", .vNum 3)] 2] ∧
    ((ids (runOps rtF ⟨[], []⟩
      [.opCreate [("a", .vNum 1)] 0 "id1",
       .opUpsert [("key", .vStr "a"), ("a", .vNum 2)] 1 "id2",
       .opUpdate [("_id", .vStr "id1"), ("b", .vNum 3)] 2])).Nodup ∧
      ∃ ext, ids (runOps rtF ⟨[], []⟩
        [.opCreate [("a", .vNum 1)] 0 "id1",
         .opUpsert [("key", .vStr "a"), ("a", .vNum 2)] 1 "id2",
         .opUpdate [("_id", .vStr "id1"), ("b", .vNum 3)] 2]) = ids ⟨[], []⟩ ++ ext) :=
  ⟨by decide,
   ⟨⟨by decide, by decide⟩, ⟨by decide, by decide⟩, trivial, trivial⟩,
   c3_id_uniqueness rtF ⟨[], []⟩ _ (by decide)
     ⟨⟨by decide, by decide⟩, ⟨by decide, by decide⟩, trivial, trivial⟩⟩


/-! ### Claim C4: upsertOne three-branch fallthrough -/

/-- The update-result value returned by both update branches of `upsertOne`. -/
def upsertUpd : UpsertResult := { matchedCount := 1, modifiedCount := 1 }

theorem upsertOne_id_hit {c : Collection} {doc : Doc} {now : Nat} (g : String)
    {data' : List Doc}
    (ht : truthy (getField doc "_id") = true)
    (hu : updateFirst (fun d => strictEq (getField d "_id") (getField doc "_id"))
      (mergeUp doc now) c.data = some data') :
    upsertOne c doc now g = (upsertUpd, writeBack data') := by
  simp only [upsertOne, ht, if_true, hu, upsertUpd]

theorem upsertOne_key_stage {c : Collection} {doc : Doc} {now : Nat} (g : String)
    (hskip : truthy (getField doc "_id") = false ∨
      updateFirst (fun d => strictEq (getField d "_id") (getField doc "_id"))
        (mergeUp doc now) c.data = none) :
    upsertOne c doc now g =
      (match
        (if truthy (getField doc "key") &&
            truthy (getField doc (toJSString (getField doc "key"))) then
          updateFirst
            (fun d => strictEq (getField d (toJSString (getField doc "key")))
              (getField doc (toJSString (getField doc "key"))))
            (mergeUp doc now) c.data
        else none) with
      | some data' => (upsertUpd, writeBack data')
      | none =>
          ({ upsertedId := some (newIdVal doc g), upsertedCount := some 1,
             matchedCount := 0, modifiedCount := 0 },
           writeBack (c.data ++ [withMeta doc now g]))) := by
  rcases hskip with ht | hu
  · simp only [upsertOne, ht, Bool.false_eq_true, if_false, upsertUpd]
  · cases ht : truthy (getField doc "_id") with
    | true => simp only [upsertOne, ht, if_true, hu, upsertUpd]
    | false => simp only [upsertOne, ht, Bool.false_eq_true, if_false, upsertUpd]

/-- C4, counterexample. On an empty collection, `upsertOne` with a document
carrying the unmatched `_id` "x" takes the insert branch but reuses the
supplied "x" as the stored `_id` and as `upsertedId` — not the generated id
"g" the claim promises for the insert branch. -/
theorem c4_counterexample :
    (upsertOne ⟨[], []⟩ [("_id", .vStr "x"), ("a", .vNum 1)] 0 "g").1.upsertedCount = some 1 ∧
    (upsertOne ⟨[], []⟩ [("_id", .vStr "x"), ("a", .vNum 1)] 0 "g").1.upsertedId =
      some (.vStr "x") ∧
    (∀ d ∈ (upsertOne ⟨[], []⟩ [("_id", .vStr "x"), ("a", .vNum 1)] 0 "g").2.data,
      getField d "_id" = .vStr "x") ∧
    "x" ≠ "g" :=
  ⟨by decide, by decide, by decide, by decide⟩

/-- C4 (amended): `upsertOne` resolves by the priority-ordered three-branch
fallthrough — (a) if the document's `_id` is truthy and strict-equals a stored
`_id`, the first such document is merged and updated; (b) otherwise, if the
key designation `doc.key` is truthy and the key-designated field is truthy and
strict-equals the same field of a stored document, the first such document is
merged and updated; (c) otherwise a new document is inserted whose `_id` is
the supplied `_id` when truthy and the generated id only otherwise, stamped
with `createdAt` and `updatedAt`. Exactly one of the update-result shape or
the insert-result shape is returned, never both. -/
theorem c4_upsert_branch_structure (c : Collection) (doc : Doc) (now : Nat) (g : String) :
    (((upsertOne c doc now g).1.upsertedCount = some 1 ∧
      (upsertOne c doc now g).1.upsertedId = some (newIdVal doc g) ∧
      (upsertOne c doc now g).1.matchedCount = 0 ∧
      (upsertOne c doc now g).1.modifiedCount = 0) ∨
     ((upsertOne c doc now g).1.upsertedCount = none ∧
      (upsertOne c doc now g).1.upsertedId = none ∧
      (upsertOne c doc now g).1.matchedCount = 1 ∧
      (upsertOne c doc now g).1.modifiedCount = 1)) ∧
    (truthy (getField doc "_id") = true →
      ∀ pre d post, c.data = pre ++ d :: post →
        (∀ x ∈ pre, strictEq (getField x "_id") (getField doc "_id") = false) →
        strictEq (getField d "_id") (getField doc "_id") = true →
        upsertOne c doc now g = (upsertUpd, writeBack (pre ++ mergeUp doc now d :: post))) ∧
    ((truthy (getField doc "_id") = false ∨
        (∀ d ∈ c.data, strictEq (getField d "_id") (getField doc "_id") = false)) →
      ((truthy (getField doc "key") &&
          truthy (getField doc (toJSString (getField doc "key")))) = true →
        ∀ pre d post, c.data = pre ++ d :: post →
          (∀ x ∈ pre, strictEq (getField x (toJSString (getField doc "key")))
            (getField doc (toJSString (getField doc "key"))) = false) →
          strictEq (getField d (toJSString (getField doc "key")))
            (getField doc (toJSString (getField doc "key"))) = true →
          upsertOne c doc now g =
            (upsertUpd, writeBack (pre ++ mergeUp doc now d :: post))) ∧
      (((truthy (getField doc "key") &&
          truthy (getField doc (toJSString (getField doc "key")))) = false ∨
        (∀ d ∈ c.data, strictEq (getField d (toJSString (getField doc "key")))
          (getField doc (toJSString (getField doc "key"))) = false)) →
        upsertOne c doc now g =
          ({ upsertedId := some (newIdVal doc g), upsertedCount := some 1,
             matchedCount := 0, modifiedCount := 0 },
           writeBack (c.data ++ [withMeta doc now g])))) := by
  refine ⟨?_, ?_, ?_⟩
  · -- exactly one result shape
    cases ht : truthy (getField doc "_id") with
    | true =>
        cases hu : updateFirst (fun d => strictEq (getField d "_id") (getField doc "_id"))
            (mergeUp doc now) c.data with
        | some data' => rw [upsertOne_id_hit g ht hu]; right; exact ⟨rfl, rfl, rfl, rfl⟩
        | none =>
            rw [upsertOne_key_stage g (Or.inr hu)]
            cases hk : (if truthy (getField doc "key") &&
                truthy (getField doc (toJSString (getField doc "key"))) then
              updateFirst
                (fun d => strictEq (getField d (toJSString (getField doc "key")))
                  (getField doc (toJSString (getField doc "key"))))
                (mergeUp doc now) c.data
            else none) with
            | some data' => right; exact ⟨rfl, rfl, rfl, rfl⟩
            | none => left; exact ⟨rfl, rfl, rfl, rfl⟩
    | false =>
        rw [upsertOne_key_stage g (Or.inl ht)]
        cases hk : (if truthy (getField doc "key") &&
            truthy (getField doc (toJSString (getField doc "key"))) then
          updateFirst
            (fun d => strictEq (getField d (toJSString (getField doc "key")))
              (getField doc (toJSString (getField doc "key"))))
            (mergeUp doc now) c.data
        else none) with
        | some data' => right; exact ⟨rfl, rfl, rfl, rfl⟩
        | none => left; exact ⟨rfl, rfl, rfl, rfl⟩
  · -- id branch characterization
    intro ht pre d post hsplit hpre hd
    have hu : updateFirst (fun d => strictEq (getField d "_id") (getField doc "_id"))
        (mergeUp doc now) c.data = some (pre ++ mergeUp doc now d :: post) := by
      rw [hsplit]
      exact updateFirst_spec post hpre hd
    exact upsertOne_id_hit g ht hu
  · -- branches (b) and (c), given branch (a) not taken
    intro hskip
    have hskip' : truthy (getField doc "_id") = false ∨
        updateFirst (fun d => strictEq (getField d "_id") (getField doc "_id"))
          (mergeUp doc now) c.data = none := by
      rcases hskip with h | h
      · exact Or.inl h
      · exact Or.inr (updateFirst_eq_none.2 h)
    constructor
    · -- key branch characterization
      intro hkcond pre d post hsplit hpre hd
      rw [upsertOne_key_stage g hskip']
      have hk : updateFirst
          (fun x => strictEq (getField x (toJSString (getField doc "key")))
            (getField doc (toJSString (getField doc "key"))))
          (mergeUp doc now) c.data = some (pre ++ mergeUp doc now d :: post) := by
        rw [hsplit]
        exact updateFirst_spec post hpre hd
      rw [if_pos hkcond, hk]
    · -- insert branch, given branch (b) not taken either
      intro hkmiss
      rw [upsertOne_key_stage g hskip']
      rcases hkmiss with h | h
      · rw [h]
        simp
      · cases hkc : truthy (getField doc "key") &&
            truthy (getField doc (toJSString (getField doc "key"))) with
        | true => rw [if_pos rfl, updateFirst_eq_none.2 h]
        | false => simp

/-- C4 witness: on a one-document collection with no `_id`/key hit, the
amended theorem's insert branch applies; its hypotheses are discharged at the
concrete input. -/
theorem c4_witness :
    upsertOne ⟨[[("_id", .vStr "y")]], [[("_id", .vStr "y")]]⟩
        [("a", .vNum 1)] 5 "gen" =
      ({ upsertedId := some (newIdVal [("a", .vNum 1)] "gen"), upsertedCount := some 1,
         matchedCount := 0, modifiedCount := 0 },
       writeBack ([[("_id", .vStr "y")]] ++ [withMeta [("a", .vNum 1)] 5 "gen"])) :=
  ((c4_upsert_branch_structure ⟨[[("_id", .vStr "y")]], [[("_id", .vStr "y")]]⟩
      [("a", .vNum 1)] 5 "gen").2.2 (Or.inl (by decide))).2 (Or.inl (by decide))

/-! ### Claim C5: updateOne error/zero/success contract -/

/-- The identifier `_id || id` that `updateOne` resolves from its argument. -/
def updDocId (doc : Doc) : Val :=
  if truthy (getField doc "_id") then getField doc "_id" else getField doc "id"

theorem updateOne_eq (c : Collection) (doc : Doc) (now : Nat) :
    updateOne c doc now =
      (if !truthy (updDocId doc) then .error "Either _id or id must be provided"
       else
        match updateFirst (fun d => strictEq (getField d "_id") (updDocId doc))
            (mergeUp (doc.filter fun kv => kv.1 ≠ "_id" ∧ kv.1 ≠ "id") now) c.data with
        | none => .ok ({ matchedCount := 0, modifiedCount := 0 }, c)
        | some data' => .ok ({ matchedCount := 1, modifiedCount := 1 }, writeBack data')) :=
  rfl

/-- C5, counterexample. The document `\x7b_id: ""\x7d` carries an id field,
yet `updateOne` raises the invalid-argument error, because the code tests
JS truthiness of `_id || id` and the empty string is falsy; the claim's
"if and only if the supplied document carries no id" fails. -/
theorem c5_counterexample :
    hasField [("_id", Val.vStr "")] "_id" = true ∧
    updateOne ⟨[], []⟩ [("_id", .vStr "")] 0 =
      .error "Either _id or id must be provided" :=
  ⟨by decide, rfl⟩

/-- C5 (amended): `updateOne` raises `InvalidArgument` if and only if neither
the document's `_id` nor its `id` field holds a truthy value. Given a truthy
identifier (`_id` preferred when truthy, else `id`): if no stored document's
`_id` strict-equals it, the call returns `\x7bmatchedCount: 0,
modifiedCount: 0\x7d` and leaves the in-memory collection and its backing file
untouched (no persist); if a stored document matches, the first such document
is merged with the remaining fields (minus `_id`/`id`), `updatedAt` is
refreshed, the collection is persisted, and `\x7bmatchedCount: 1,
modifiedCount: 1\x7d` is returned. -/
theorem c5_updateOne_contract (c : Collection) (doc : Doc) (now : Nat) :
    (updateOne c doc now = .error "Either _id or id must be provided" ↔
      (truthy (getField doc "_id") = false ∧ truthy (getField doc "id") = false)) ∧
    (truthy (updDocId doc) = true →
      (∀ d ∈ c.data, strictEq (getField d "_id") (updDocId doc) = false) →
      updateOne c doc now = .ok ({ matchedCount := 0, modifiedCount := 0 }, c)) ∧
    (truthy (updDocId doc) = true →
      ∀ pre d post, c.data = pre ++ d :: post →
        (∀ x ∈ pre, strictEq (getField x "_id") (updDocId doc) = false) →
        strictEq (getField d "_id") (updDocId doc) = true →
        updateOne c doc now = .ok ({ matchedCount := 1, modifiedCount := 1 },
          writeBack (pre ++
            mergeUp (doc.filter fun kv => kv.1 ≠ "_id" ∧ kv.1 ≠ "id") now d :: post))) := by
  refine ⟨?_, ?_, ?_⟩
  · rw [updateOne_eq]
    constructor
    · intro h
      have ht : truthy (updDocId doc) = false := by
        cases ht : truthy (updDocId doc) with
        | false => rfl
        | true =>
            rw [ht] at h
            simp only [Bool.not_true, Bool.false_eq_true, if_false] at h
            cases hu : updateFirst (fun d => strictEq (getField d "_id") (updDocId doc))
                (mergeUp (doc.filter fun kv => kv.1 ≠ "_id" ∧ kv.1 ≠ "id") now) c.data <;>
              rw [hu] at h <;> simp at h
      cases hti : truthy (getField doc "_id") with
      | true =>
          exfalso
          unfold updDocId at ht
          rw [if_pos hti] at ht
          simp [hti] at ht
      | false =>
          refine ⟨rfl, ?_⟩
          unfold updDocId at ht
          rwa [if_neg (by simp [hti])] at ht
    · intro ⟨h1, h2⟩
      have ht : truthy (updDocId doc) = false := by
        unfold updDocId
        rw [if_neg (by simp [h1])]
        exact h2
      rw [ht]
      rfl
  · intro ht hnone
    rw [updateOne_eq, ht]
    simp only [Bool.not_true, Bool.false_eq_true, if_false]
    rw [updateFirst_eq_none.2 hnone]
  · intro ht pre d post hsplit hpre hd
    rw [updateOne_eq, ht]
    simp only [Bool.not_true, Bool.false_eq_true, if_false]
    rw [hsplit, updateFirst_spec post hpre hd]

/-- C5 witness: the amended contract applied at concrete inputs — a miss on a
one-document collection (counts 0, state returned untouched) and a hit that
merges, stamps `updatedAt` and persists. -/
theorem c5_witness :
    updateOne ⟨[[("_id", .vStr "y"), ("n", .vNum 0)]], [[("_id", .vStr "y"), ("n", .vNum 0)]]⟩
        [("_id", .vStr "z"), ("a", .vNum 1)] 7 =
      .ok ({ matchedCount := 0, modifiedCount := 0 },
        ⟨[[("_id", .vStr "y"), ("n", .vNum 0)]], [[("_id", .vStr "y"), ("n", .vNum 0)]]⟩) ∧
    updateOne ⟨[[("_id", .vStr "y"), ("n", .vNum 0)]], [[("_id", .vStr "y"), ("n", .vNum 0)]]⟩
        [("_id", .vStr "y"), ("a", .vNum 1)] 7 =
      .ok ({ matchedCount := 1, modifiedCount := 1 },
        writeBack ([] ++
          mergeUp ([("_id", .vStr "y"), ("a", .vNum 1)].filter
              fun kv => kv.1 ≠ "_id" ∧ kv.1 ≠ "id") 7
            [("_id", .vStr "y"), ("n", .vNum 0)] :: [])) :=
  ⟨(c5_updateOne_contract ⟨[[("_id", .vStr "y"), ("n", .vNum 0)]],
        [[("_id", .vStr "y"), ("n", .vNum 0)]]⟩ [("_id", .vStr "z"), ("a", .vNum 1)] 7).2.1
      (by decide) (by decide),
   (c5_updateOne_contract ⟨[[("_id", .vStr "y"), ("n", .vNum 0)]],
        [[("_id", .vStr "y"), ("n", .vNum 0)]]⟩ [("_id", .vStr "y"), ("a", .vNum 1)] 7).2.2
      (by decide) [] [("_id", .vStr "y"), ("n", .vNum 0)] [] rfl (by decide) (by decide)⟩


/-! ### Claim C6: plain-value query conditions -/

/-- Does the condition object define none of the nine recognized operators? -/
def noOpKeys (cond : Val) : Bool :=
  !isDefined (opLookup cond "$eq") && !isDefined (opLookup cond "$ne") &&
  !isDefined (opLookup cond "$gt") && !isDefined (opLookup cond "$gte") &&
  !isDefined (opLookup cond "$lt") && !isDefined (opLookup cond "$lte") &&
  !isDefined (opLookup cond "$in") && !isDefined (opLookup cond "$nin") &&
  !isDefined (opLookup cond "$regex")

/-- C6, counterexample. The query condition `\x7bb: 1\x7d` is a plain nested
object with no operator keys; the claim says it matches only documents whose
`a` field deep-equals it, but `#matchQuery` routes every non-null object
condition through the operator branch, where no operator key is defined and
every check is skipped — so the document with `a = \x7bb: 2\x7d` (not
deep-equal) matches. -/
theorem c6_counterexample :
    matchQuery rtF [("a", .vObj [("b", .vNum 2)])] [("a", .vObj [("b", .vNum 1)])] = true ∧
    getField [("a", .vObj [("b", .vNum 2)])] "a" ≠ Val.vObj [("b", .vNum 1)] :=
  ⟨by decide, by decide⟩

/-- C6 (amended): when a query field's condition is a primitive value (not an
object, array or Date), the matcher holds iff the document's field
strict-equals (`===`) the condition; when the condition is a non-null
object-typed value carrying none of the nine operator keys, the field imposes
no constraint at all — every document matches, deep-equal or not. -/
theorem c6_matchQuery_plain_values (rt : Val → Val → String → Bool) (doc : Doc)
    (k : String) (cond : Val) :
    (isObjLike cond = false →
      matchQuery rt doc [(k, cond)] = strictEq (getField doc k) cond) ∧
    (isObjLike cond = true → noOpKeys cond = true →
      matchQuery rt doc [(k, cond)] = true) := by
  constructor
  · intro h
    simp [matchQuery, matchCond, h]
  · intro h hno
    simp only [noOpKeys, Bool.and_eq_true, Bool.not_eq_true'] at hno
    obtain ⟨⟨⟨⟨⟨⟨⟨⟨h1, h2⟩, h3⟩, h4⟩, h5⟩, h6⟩, h7⟩, h8⟩, h9⟩ := hno
    simp [matchQuery, matchCond, h, h1, h2, h3, h4, h5, h6, h7, h8, h9]

/-- C6 witness: the amended theorem applied at a primitive condition (strict
equality decides the match) and at an operator-free object condition (the
document matches although its field is not deep-equal to the condition). -/
theorem c6_witness :
    matchQuery rtF [("a", .vNum 3)] [("a", .vNum 3)] = strictEq (getField [("a", .vNum 3)] "a") (.vNum 3) ∧
    matchQuery rtF [("a", .vNum 3)] [("a", .vObj [("x", .vNum 9)])] = true :=
  ⟨(c6_matchQuery_plain_values rtF [("a", .vNum 3)] "a" (.vNum 3)).1 (by decide),
   (c6_matchQuery_plain_values rtF [("a", .vNum 3)] "a" (.vObj [("x", .vNum 9)])).2
     (by decide) (by decide)⟩

/-! ### Claim C7: upsert idempotence on a designated key -/

theorem getField_withMeta_other (doc : Doc) (now : Nat) (g : String) {k : String}
    (h1 : k ≠ "_id") (h2 : k ≠ "createdAt") (h3 : k ≠ "updatedAt") :
    getField (withMeta doc now g) k = getField doc k := by
  unfold withMeta
  rw [getField_setField, if_neg (fun h => h3 h.symm), getField_setField,
    if_neg (fun h => h2 h.symm), getField_setField, if_neg (fun h => h1 h.symm)]

theorem toJSString_vStr (s : String) : toJSString (.vStr s) = s := by
  simp [toJSString]

theorem truthy_ne_undef {v : Val} (h : truthy v = true) : v ≠ .vUndefined := by
  intro hv
  rw [hv] at h
  cases h

theorem upsertOne_key_insert {c : Collection} {doc : Doc} {now : Nat} (g : String)
    (hid : hasField doc "_id" = false)
    (hnone : updateFirst
      (fun d => strictEq (getField d (toJSString (getField doc "key")))
        (getField doc (toJSString (getField doc "key"))))
      (mergeUp doc now) c.data = none) :
    upsertOne c doc now g =
      ({ upsertedId := some (newIdVal doc g), upsertedCount := some 1,
         matchedCount := 0, modifiedCount := 0 },
       writeBack (c.data ++ [withMeta doc now g])) := by
  rw [upsertOne_key_stage g (Or.inl (truthy_id_false hid))]
  cases hkc : truthy (getField doc "key") &&
      truthy (getField doc (toJSString (getField doc "key"))) with
  | true => rw [if_pos rfl, hnone]
  | false => simp

theorem upsertOne_key_update {c : Collection} {doc : Doc} {now : Nat} (g : String)
    {data' : List Doc}
    (hid : hasField doc "_id" = false)
    (hcond : (truthy (getField doc "key") &&
      truthy (getField doc (toJSString (getField doc "key")))) = true)
    (hsome : updateFirst
      (fun d => strictEq (getField d (toJSString (getField doc "key")))
        (getField doc (toJSString (getField doc "key"))))
      (mergeUp doc now) c.data = some data') :
    upsertOne c doc now g = (upsertUpd, writeBack data') := by
  rw [upsertOne_key_stage g (Or.inl (truthy_id_false hid)), if_pos hcond, hsome]

/-- C7 (confirmed): starting from a collection with no document whose field `k`
strict-equals the (truthy, self-`===`-equal, engine-field-free) key value `v`,
two `upsertOne` calls designating key `k` with the same value `v` and
differing other fields leave exactly one document holding `v` at `k`; that
document carries every non-`updatedAt` field of the second call plus the
second call's `updatedAt` stamp; the first call returns the insert shape
(`upsertedCount` 1, `matchedCount` 0) and the second returns
`\x7bmatchedCount: 1, modifiedCount: 1\x7d` with no `upsertedCount`. -/
theorem c7_upsert_idempotence (c : Collection) (k : String) (v : Val) (doc1 doc2 : Doc)
    (now1 now2 : Nat) (g1 g2 : String)
    (hk1 : getField doc1 "key" = .vStr k) (hk2 : getField doc2 "key" = .vStr k)
    (hv1 : getField doc1 k = v) (hv2 : getField doc2 k = v)
    (hvt : truthy v = true) (hvs : strictEq v v = true) (hkt : k ≠ "")
    (hid1 : hasField doc1 "_id" = false) (hid2 : hasField doc2 "_id" = false)
    (hmiss : ∀ d ∈ c.data, strictEq (getField d k) v = false)
    (hknid : k ≠ "_id") (hknc : k ≠ "createdAt") (hknu : k ≠ "updatedAt")
    (hnd2 : (doc2.map Prod.fst).Nodup) :
    (upsertOne c doc1 now1 g1).1.upsertedCount = some 1 ∧
    (upsertOne c doc1 now1 g1).1.matchedCount = 0 ∧
    (upsertOne (upsertOne c doc1 now1 g1).2 doc2 now2 g2).1 = upsertUpd ∧
    ((upsertOne (upsertOne c doc1 now1 g1).2 doc2 now2 g2).2.data.countP
      (fun d => strictEq (getField d k) v)) = 1 ∧
    ∃ m, (upsertOne (upsertOne c doc1 now1 g1).2 doc2 now2 g2).2.data = c.data ++ [m] ∧
      getField m k = v ∧
      (∀ f, f ≠ "updatedAt" → hasField doc2 f = true → getField m f = getField doc2 f) ∧
      getField m "updatedAt" = .vDate now2 := by
  have hkf1 : toJSString (getField doc1 "key") = k := by rw [hk1, toJSString_vStr]
  have hkf2 : toJSString (getField doc2 "key") = k := by rw [hk2, toJSString_vStr]
  have hnone1 : updateFirst
      (fun d => strictEq (getField d (toJSString (getField doc1 "key")))
        (getField doc1 (toJSString (getField doc1 "key"))))
      (mergeUp doc1 now1) c.data = none := by
    refine updateFirst_eq_none.2 ?_
    intro d hd
    rw [hkf1, hv1]
    exact hmiss d hd
  have e1 : upsertOne c doc1 now1 g1 =
      ({ upsertedId := some (newIdVal doc1 g1), upsertedCount := some 1,
         matchedCount := 0, modifiedCount := 0 },
       writeBack (c.data ++ [withMeta doc1 now1 g1])) :=
    upsertOne_key_insert g1 hid1 hnone1
  have hn1k : getField (withMeta doc1 now1 g1) k = v := by
    rw [getField_withMeta_other doc1 now1 g1 hknid hknc hknu, hv1]
  have hd2k : hasField doc2 k = true :=
    hasField_of_getField (fun h => truthy_ne_undef hvt (hv2 ▸ h))
  have hcond2 : (truthy (getField doc2 "key") &&
      truthy (getField doc2 (toJSString (getField doc2 "key")))) = true := by
    rw [hkf2, hk2, hv2, hvt, Bool.and_true]
    simp [truthy, hkt]
  have hu2 : updateFirst
      (fun d => strictEq (getField d (toJSString (getField doc2 "key")))
        (getField doc2 (toJSString (getField doc2 "key"))))
      (mergeUp doc2 now2) (c.data ++ [withMeta doc1 now1 g1]) =
      some (c.data ++ mergeUp doc2 now2 (withMeta doc1 now1 g1) :: []) := by
    rw [hkf2, hv2]
    refine updateFirst_spec [] hmiss ?_
    rw [hn1k]
    exact hvs
  have e2 : upsertOne (writeBack (c.data ++ [withMeta doc1 now1 g1])) doc2 now2 g2 =
      (upsertUpd, writeBack (c.data ++ mergeUp doc2 now2 (withMeta doc1 now1 g1) :: [])) :=
    upsertOne_key_update g2 hid2 hcond2 hu2
  have hmk : getField (mergeUp doc2 now2 (withMeta doc1 now1 g1)) k = v := by
    rw [getField_mergeUp_of_hasField _ _ hnd2 hd2k hknu, hv2]
  refine ⟨by rw [e1], by rw [e1], by rw [e1, e2], ?_, ?_⟩
  · rw [e1, e2]
    show ((c.data ++ mergeUp doc2 now2 (withMeta doc1 now1 g1) :: []).countP
      (fun d => strictEq (getField d k) v)) = 1
    rw [List.countP_append]
    have hz : c.data.countP (fun d => strictEq (getField d k) v) = 0 := by
      refine List.countP_eq_zero.2 ?_
      intro d hd
      simp [hmiss d hd]
    rw [hz]
    simp [List.countP_cons, hmk, hvs]
  · refine ⟨mergeUp doc2 now2 (withMeta doc1 now1 g1), by rw [e1, e2]; rfl, hmk, ?_, ?_⟩
    · intro f hf hff
      exact getField_mergeUp_of_hasField _ _ hnd2 hff hf
    · exact getField_mergeUp_updatedAt _ _ _

/-- C7 witness: the spec's own example — upserting `\x7bkey:"email",
email:"x@y.com", v:1\x7d` then the same email with `v:2` into an empty
collection — instantiates every hypothesis of the theorem. -/
theorem c7_witness :
    (upsertOne ⟨[], []⟩
      [("key", .vStr "email"), ("email", .vStr "x@y.com"), ("v", .vNum 1)] 0 "g1").1.upsertedCount
      = some 1 ∧
    (upsertOne ⟨[], []⟩
      [("key", .vStr "email"), ("email", .vStr "x@y.com"), ("v", .vNum 1)] 0 "g1").1.matchedCount
      = 0 ∧
    (upsertOne (upsertOne ⟨[], []⟩
        [("key", .vStr "email"), ("email", .vStr "x@y.com"), ("v", .vNum 1)] 0 "g1").2
      [("key", .vStr "email"), ("email", .vStr "x@y.com"), ("v", .vNum 2)] 1 "g2").1 = upsertUpd ∧
    ((upsertOne (upsertOne ⟨[], []⟩
        [("key", .vStr "email"), ("email", .vStr "x@y.com"), ("v", .vNum 1)] 0 "g1").2
      [("key", .vStr "email"), ("email", .vStr "x@y.com"), ("v", .vNum 2)] 1 "g2").2.data.countP
      (fun d => strictEq (getField d "email") (.vStr "x@y.com"))) = 1 ∧
    ∃ m, (upsertOne (upsertOne ⟨[], []⟩
        [("key", .vStr "email"), ("email", .vStr "x@y.com"), ("v", .vNum 1)] 0 "g1").2
      [("key", .vStr "email"), ("email", .vStr "x@y.com"), ("v", .vNum 2)] 1 "g2").2.data
        = (⟨[], []⟩ : Collection).data ++ [m] ∧
      getField m "email" = .vStr "x@y.com" ∧
      (∀ f, f ≠ "updatedAt" →
        hasField [("key", .vStr "email"), ("email", .vStr "x@y.com"), ("v", .vNum 2)] f = true →
        getField m f =
          getField [("key", .vStr "email"), ("email", .vStr "x@y.com"), ("v", .vNum 2)] f) ∧
      getField m "updatedAt" = .vDate 1 :=
  c7_upsert_idempotence ⟨[], []⟩ "email" (.vStr "x@y.com")
    [("key", .vStr "email"), ("email", .vStr "x@y.com"), ("v", .vNum 1)]
    [("key", .vStr "email"), ("email", .vStr "x@y.com"), ("v", .vNum 2)]
    0 1 "g1" "g2" rfl rfl rfl rfl (by decide) (by decide) (by decide)
    (by decide) (by decide) (by decide) (by decide) (by decide) (by decide) (by decide)


/-! ### Claim C9: updateOne identifier resolution and frame -/

theorem getField_filter_keyp {doc : Doc} {f : String} {p : String × Val → Bool}
    (hp : ∀ v, p (f, v) = true) :
    getField (doc.filter p) f = getField doc f := by
  induction doc with
  | nil => rfl
  | cons kv rest ih =>
      obtain ⟨k0, v0⟩ := kv
      by_cases hk : k0 = f
      · subst hk
        rw [List.filter_cons, if_pos (by simp [hp v0])]
        simp [getField]
      · rw [List.filter_cons]
        by_cases hpkv : p (k0, v0) = true
        · rw [if_pos (by simp [hpkv])]
          simp [getField, hk, ih]
        · rw [if_neg (by simp [hpkv])]
          simp [getField, hk, ih]

theorem hasField_filter_keyp {doc : Doc} {f : String} {p : String × Val → Bool}
    (hp : ∀ v, p (f, v) = true) :
    hasField (doc.filter p) f = hasField doc f := by
  induction doc with
  | nil => rfl
  | cons kv rest ih =>
      obtain ⟨k0, v0⟩ := kv
      by_cases hk : k0 = f
      · subst hk
        rw [List.filter_cons, if_pos (by simp [hp v0])]
        simp [hasField]
      · rw [List.filter_cons]
        by_cases hpkv : p (k0, v0) = true
        · rw [if_pos (by simp [hpkv])]
          simpa [hasField, hk] using ih
        · rw [if_neg (by simp [hpkv])]
          rw [ih]
          simp [hasField, hk]

theorem hasField_filter_of_not {doc : Doc} {f : String} {p : String × Val → Bool}
    (h : hasField doc f = false) : hasField (doc.filter p) f = false := by
  simp only [hasField, List.any_eq_false, decide_eq_true_eq] at h ⊢
  intro kv hkv
  exact h kv (List.mem_of_mem_filter hkv)

/-- C9, counterexample. The stored document has `_id` "x"; the update argument
supplies both `_id: ""` and `id: "x"`. Preferring the supplied `_id`, as the
claim states, would look up "" — matching nothing, so matchedCount 0 — but the
code computes `_id || id`, discards the falsy empty-string `_id`, locates the
document through `id` and updates it. -/
theorem c9_counterexample :
    (∀ d ∈ ([[("_id", .vStr "x"), ("n", .vNum 0)]] : List Doc),
      strictEq (getField d "_id") (.vStr "") = false) ∧
    updateOne ⟨[[("_id", .vStr "x"), ("n", .vNum 0)]], [[("_id", .vStr "x"), ("n", .vNum 0)]]⟩
        [("_id", .vStr ""), ("id", .vStr "x"), ("a", .vNum 1)] 5 =
      .ok ({ matchedCount := 1, modifiedCount := 1 },
        writeBack [[("_id", .vStr "x"), ("n", .vNum 0), ("a", .vNum 1), ("updatedAt", .vDate 5)]]) :=
  ⟨by decide, rfl⟩

/-- C9 (amended): `updateOne` accepts the identifier as `_id` or `id`,
preferring `_id` only when it is truthy (a falsy `_id` such as "" falls back
to `id`); it locates the stored document whose `_id` strict-equals that value
and merges the argument minus its `_id` and `id` fields over it: the updated
document keeps its `_id`, takes `updatedAt := now`, every field outside the
patch (including `_id`, `id`-named fields and fields absent from the
argument) is unchanged, every patched field takes the argument's value, and
all other documents are untouched. -/
theorem c9_updateOne_frame (c : Collection) (doc : Doc) (now : Nat)
    (pre post : List Doc) (d : Doc)
    (hsplit : c.data = pre ++ d :: post)
    (hpre : ∀ x ∈ pre, strictEq (getField x "_id") (updDocId doc) = false)
    (hd : strictEq (getField d "_id") (updDocId doc) = true)
    (ht : truthy (updDocId doc) = true)
    (hnd : (doc.map Prod.fst).Nodup) :
    (truthy (getField doc "_id") = true → updDocId doc = getField doc "_id") ∧
    (truthy (getField doc "_id") = false → updDocId doc = getField doc "id") ∧
    ∃ m, updateOne c doc now = .ok ({ matchedCount := 1, modifiedCount := 1 },
        writeBack (pre ++ m :: post)) ∧
      getField m "_id" = getField d "_id" ∧
      getField m "updatedAt" = .vDate now ∧
      (∀ f, f ≠ "updatedAt" → (hasField doc f = false ∨ f = "_id" ∨ f = "id") →
        getField m f = getField d f) ∧
      (∀ f, f ≠ "updatedAt" → f ≠ "_id" → f ≠ "id" → hasField doc f = true →
        getField m f = getField doc f) := by
  refine ⟨?_, ?_, ?_⟩
  · intro h
    unfold updDocId
    rw [if_pos h]
  · intro h
    unfold updDocId
    rw [if_neg (by simp [h])]
  · refine ⟨mergeUp (doc.filter fun kv => kv.1 ≠ "_id" ∧ kv.1 ≠ "id") now d, ?_, ?_, ?_, ?_, ?_⟩
    · rw [updateOne_eq, ht]
      simp only [Bool.not_true, Bool.false_eq_true, if_false]
      rw [hsplit, updateFirst_spec post hpre hd]
    · refine getField_mergeUp_of_not_hasField d now ?_ (by decide)
      refine hasField_filter_false ?_
      intro kv hkv
      simp only [decide_eq_true_eq] at hkv
      exact hkv.1
    · exact getField_mergeUp_updatedAt _ _ _
    · intro f hf hcase
      refine getField_mergeUp_of_not_hasField d now ?_ hf
      rcases hcase with h | rfl | rfl
      · exact hasField_filter_of_not h
      · refine hasField_filter_false ?_
        intro kv hkv
        simp only [decide_eq_true_eq] at hkv
        exact hkv.1
      · refine hasField_filter_false ?_
        intro kv hkv
        simp only [decide_eq_true_eq] at hkv
        exact hkv.2
    · intro f hfu hf1 hf2 hff
      have hp : ∀ v : Val, (fun kv : String × Val => decide (kv.1 ≠ "_id" ∧ kv.1 ≠ "id")) (f, v) = true := by
        intro v
        simp [hf1, hf2]
      have hnd' : ((doc.filter fun kv => kv.1 ≠ "_id" ∧ kv.1 ≠ "id").map Prod.fst).Nodup :=
        List.Nodup.sublist (List.Sublist.map Prod.fst (List.filter_sublist doc)) hnd
      have hhf : hasField (doc.filter fun kv => kv.1 ≠ "_id" ∧ kv.1 ≠ "id") f = true := by
        rw [hasField_filter_keyp hp]
        exact hff
      rw [getField_mergeUp_of_hasField d now hnd' hhf hfu, getField_filter_keyp hp]

/-- C9 witness: the amended theorem applied to a one-document collection and a
patch carrying a falsy `_id` and a matching `id`; all hypotheses discharged
concretely. -/
theorem c9_witness :
    (truthy (getField [("_id", .vStr ""), ("id", .vStr "x"), ("a", .vNum 1)] "_id") = false →
      updDocId [("_id", .vStr ""), ("id", .vStr "x"), ("a", .vNum 1)] =
        getField [("_id", .vStr ""), ("id", .vStr "x"), ("a", .vNum 1)] "id") ∧
    ∃ m, updateOne
        ⟨[[("_id", .vStr "x"), ("n", .vNum 0)]], [[("_id", .vStr "x"), ("n", .vNum 0)]]⟩
        [("_id", .vStr ""), ("id", .vStr "x"), ("a", .vNum 1)] 5 =
      .ok ({ matchedCount := 1, modifiedCount := 1 }, writeBack ([] ++ m :: [])) ∧
      getField m "_id" = getField [("_id", .vStr "x"), ("n", .vNum 0)] "_id" ∧
      getField m "updatedAt" = .vDate 5 ∧
      (∀ f, f ≠ "updatedAt" →
        (hasField [("_id", .vStr ""), ("id", .vStr "x"), ("a", .vNum 1)] f = false ∨
          f = "_id" ∨ f = "id") →
        getField m f = getField [("_id", .vStr "x"), ("n", .vNum 0)] f) ∧
      (∀ f, f ≠ "updatedAt" → f ≠ "_id" → f ≠ "id" →
        hasField [("_id", .vStr ""), ("id", .vStr "x"), ("a", .vNum 1)] f = true →
        getField m f = getField [("_id", .vStr ""), ("id", .vStr "x"), ("a", .vNum 1)] f) := by
  have h := c9_updateOne_frame
    ⟨[[("_id", .vStr "x"), ("n", .vNum 0)]], [[("_id", .vStr "x"), ("n", .vNum 0)]]⟩
    [("_id", .vStr ""), ("id", .vStr "x"), ("a", .vNum 1)] 5
    [] [] [("_id", .vStr "x"), ("n", .vNum 0)] rfl (by decide) (by decide) (by decide) (by decide)
  exact ⟨h.2.1, h.2.2⟩

/-! ### Claim C10: the literal `key` field is itself merged -/

/-- C10 (confirmed): when `upsertOne` is called with a key designation
`key = k` (and the `_id` branch is not taken), the literal `key` field is part
of the merged document in the key-match update branch and of the inserted
document in the insert branch — after either outcome the stored document
carries `key ↦ k`; and the key-match branch is taken only when the
key-designated field of the argument is truthy. -/
theorem c10_upsert_key_literal (c : Collection) (doc : Doc) (now : Nat) (g : String)
    (k : String)
    (hk : getField doc "key" = .vStr k)
    (hnd : (doc.map Prod.fst).Nodup)
    (hA : truthy (getField doc "_id") = false ∨
      (∀ d ∈ c.data, strictEq (getField d "_id") (getField doc "_id") = false)) :
    ((upsertOne c doc now g).1.matchedCount = 1 →
      truthy (getField doc k) = true ∧
      ∃ pre d post, c.data = pre ++ d :: post ∧
        (upsertOne c doc now g).2.data = pre ++ mergeUp doc now d :: post ∧
        getField (mergeUp doc now d) "key" = .vStr k) ∧
    ((upsertOne c doc now g).1.upsertedCount = some 1 →
      (upsertOne c doc now g).2.data = c.data ++ [withMeta doc now g] ∧
      getField (withMeta doc now g) "key" = .vStr k) := by
  have hkf : toJSString (getField doc "key") = k := by rw [hk, toJSString_vStr]
  have hskip' : truthy (getField doc "_id") = false ∨
      updateFirst (fun d => strictEq (getField d "_id") (getField doc "_id"))
        (mergeUp doc now) c.data = none := by
    rcases hA with h | h
    · exact Or.inl h
    · exact Or.inr (updateFirst_eq_none.2 h)
  have hkeymem : hasField doc "key" = true :=
    hasField_of_getField (by rw [hk]; intro h; cases h)
  have hmergedkey : ∀ d, getField (mergeUp doc now d) "key" = .vStr k := by
    intro d
    rw [getField_mergeUp_of_hasField d now hnd hkeymem (by decide), hk]
  rw [upsertOne_key_stage g hskip']
  cases hkc : truthy (getField doc "key") &&
      truthy (getField doc (toJSString (getField doc "key"))) with
  | true =>
      cases hu : updateFirst
          (fun d => strictEq (getField d (toJSString (getField doc "key")))
            (getField doc (toJSString (getField doc "key"))))
          (mergeUp doc now) c.data with
      | some data' =>
          rw [if_pos rfl]
          refine ⟨?_, ?_⟩
          · intro _
            obtain ⟨pre, d, post, hl, _, _, hl'⟩ := updateFirst_eq_some hu
            refine ⟨?_, pre, d, post, hl, ?_, hmergedkey d⟩
            · have h2 := hkc
              rw [Bool.and_eq_true] at h2
              rw [← hkf]
              exact h2.2
            · show data' = pre ++ mergeUp doc now d :: post
              exact hl'
          · intro h
            exact Option.noConfusion h
      | none =>
          rw [if_pos rfl]
          refine ⟨?_, ?_⟩
          · intro h
            exact absurd h Nat.zero_ne_one
          · intro _
            exact ⟨rfl,
              by rw [getField_withMeta_other doc now g (by decide) (by decide) (by decide), hk]⟩
  | false =>
      simp only [Bool.false_eq_true, if_false]
      refine ⟨?_, ?_⟩
      · intro h
        exact absurd h Nat.zero_ne_one
      · intro _
        exact ⟨rfl,
          by rw [getField_withMeta_other doc now g (by decide) (by decide) (by decide), hk]⟩

/-- C10 witness: a key-designated upsert that hits an existing document by its
`email` field; the persisted document carries the literal `key` field and the
branch condition was truthy. -/
theorem c10_witness :
    truthy (getField [("key", .vStr "email"), ("email", .vStr "e"), ("v", .vNum 2)] "email") = true ∧
    ∃ pre d post,
      (⟨[[("email", .vStr "e"), ("v", .vNum 1)]], [[("email", .vStr "e"), ("v", .vNum 1)]]⟩ :
        Collection).data = pre ++ d :: post ∧
      (upsertOne ⟨[[("email", .vStr "e"), ("v", .vNum 1)]], [[("email", .vStr "e"), ("v", .vNum 1)]]⟩
        [("key", .vStr "email"), ("email", .vStr "e"), ("v", .vNum 2)] 3 "g").2.data =
        pre ++ mergeUp [("key", .vStr "email"), ("email", .vStr "e"), ("v", .vNum 2)] 3 d :: post ∧
      getField (mergeUp [("key", .vStr "email"), ("email", .vStr "e"), ("v", .vNum 2)] 3 d) "key" =
        .vStr "email" :=
  (c10_upsert_key_literal
    ⟨[[("email", .vStr "e"), ("v", .vNum 1)]], [[("email", .vStr "e"), ("v", .vNum 1)]]⟩
    [("key", .vStr "email"), ("email", .vStr "e"), ("v", .vNum 2)] 3 "g" "email"
    rfl (by decide) (Or.inl (by decide))).1 (by decide)

end Datap
